import Mathlib

/-!
# EV charging system: shallow embedding and verification

Shallow embedding of `src/ev_charging.py` (functions `calculate_energy_needs`,
`schedule_charging`, `compute_costs_and_soc`) over exact rationals `ℚ` in place
of Python floats, with Python dicts rendered as association lists (first-match
lookup, insertion order preserved) and `defaultdict(list)` rendered by
operations that create a key on first access.  Python's stable `sorted` with a
total-preorder key is rendered by `List.insertionSort`, which is stable and
therefore produces the same list for such comparators.
-/

attribute [local semireducible] Rat.add Rat.sub Rat.mul Rat.inv Rat.ofScientific

set_option maxRecDepth 10000

namespace EvCharging

abbrev CarId := String

/-- A roster entry: `{'capacity_kWh': ..., 'max_charge_rate_kW': ...}`. -/
structure Car where
  capacity_kWh : ℚ
  max_charge_rate_kW : ℚ
deriving DecidableEq, Inhabited

/-- `cars_dict` from `load_inputs`: id → car record. -/
abbrev Cars := List (CarId × Car)

/-- First-match association-list lookup, the semantics of a Python dict
(whose keys are unique, so first match is the only match). -/
def aLookup {β : Type} (l : List (CarId × β)) (c : CarId) : Option β :=
  match l with
  | [] => none
  | p :: rest => if p.1 = c then some p.2 else aLookup rest c

/-- `cars_dict[car_id]`; total via a default (the lookup never fails on the
well-formed inputs the claims quantify over). -/
def carsGet (cars : Cars) (c : CarId) : Car :=
  (aLookup cars c).getD default

/-- One derived requirement record, as appended by `calculate_energy_needs`. -/
structure Req where
  day : ℕ
  deadline_hour : ℕ
  energy_kwh : ℚ
  max_rate_kw : ℚ
  target_soc : ℚ
  prior_day_start : ℕ
  prior_day_end : ℕ
deriving DecidableEq, Inhabited

/-- `requirements`: vehicle → list of (day, list of (time string, target SoC)).
Python's day keys are strings parsed with `int`; we carry the parsed value. -/
abbrev Requirements := List (CarId × List (ℕ × List (String × ℚ)))

/-- `energy_needs`: vehicle → derived requirement list (a `defaultdict(list)`
that holds exactly the vehicles for which at least one record was appended). -/
abbrev Needs := List (CarId × List Req)

/-- Decimal accumulation of `int` over the characters before the first `':'`
(the prefix `time.split(':')[0]`); defined on digit strings, which is the only
shape the program feeds it (`int` would raise elsewhere). -/
def parseHourChars : List Char → ℕ → ℕ
  | [], acc => acc
  | ch :: rest, acc =>
    if ch = ':' then acc else parseHourChars rest (acc * 10 + (ch.toNat - 48))

/-- `int(time.split(':')[0])`. -/
def parseHour (time : String) : ℕ :=
  parseHourChars time.data 0

/-- The records appended for one vehicle by the two inner loops of
`calculate_energy_needs` (day and time iteration order preserved). -/
def reqsOfCar (capacity maxRate initial_soc : ℚ)
    (reqs : List (ℕ × List (String × ℚ))) : List Req :=
  reqs.flatMap (fun dts =>
    dts.2.map (fun ts =>
      { day := dts.1
        deadline_hour := (dts.1 + 1) * 24 + parseHour ts.1
        energy_kwh := (ts.2 - initial_soc) * capacity / 0.95
        max_rate_kw := maxRate
        target_soc := ts.2
        prior_day_start := dts.1 * 24 + 18
        prior_day_end := (dts.1 + 1) * 24 }))

/-- `calculate_energy_needs(cars_dict, requirements, initial_soc)`.  A vehicle
appears in the result iff at least one record was appended for it (the
`if not reqs: continue` guard is subsumed: an empty day list appends nothing). -/
def calculate_energy_needs (cars_dict : Cars) (requirements : Requirements)
    (initial_soc : ℚ) : Needs :=
  requirements.filterMap (fun cr =>
    let car := carsGet cars_dict cr.1
    let l := reqsOfCar car.capacity_kWh car.max_charge_rate_kW initial_soc cr.2
    if l.isEmpty then none else some (cr.1, l))

/-! ## Slot Scheduler (`schedule_charging`) -/

/-- One charging session `(hour, power_kw, port)`. -/
structure Session where
  hour : ℕ
  power_kw : ℚ
  port : ℕ
deriving DecidableEq, Inhabited

/-- The schedule `defaultdict(list)`: vehicle → session list, key insertion
order preserved. -/
abbrev Schedule := List (CarId × List Session)

/-- `requirements_met`: vehicle → per-requirement boolean flags. -/
abbrev MetTable := List (CarId × List Bool)

/-- The availability DataFrame after transposition: `hours` are the columns
present, `index` the vehicle rows in order, `avail c h` whether the entry for
vehicle `c` at hour `h` equals 1. -/
structure Availability where
  hours : List ℕ
  index : List CarId
  avail : CarId → ℕ → Bool

/-- `schedule[c]` (read of a `defaultdict(list)` value, without key creation:
the key-creating read is `ddTouch` below). -/
def ddGet (sch : Schedule) (c : CarId) : List Session :=
  (aLookup sch c).getD []

/-- Key creation performed by any `schedule[c]` access on a `defaultdict`:
if absent, the key is inserted with an empty list. -/
def ddTouch (sch : Schedule) (c : CarId) : Schedule :=
  if (aLookup sch c).isSome then sch else sch ++ [(c, [])]

/-- `schedule[c].append(s)` (creates the key if needed). -/
def ddAppend (sch : Schedule) (c : CarId) (s : Session) : Schedule :=
  match sch with
  | [] => [(c, [s])]
  | p :: rest => if p.1 = c then (p.1, p.2 ++ [s]) :: rest else p :: ddAppend rest c s

/-- `requirements_met = {car_id: [False] * len(reqs) for car_id, reqs in energy_needs.items()}`. -/
def metInit (needs : Needs) : MetTable :=
  needs.map (fun p => (p.1, p.2.map (fun _ => false)))

/-- `requirements_met[c][i]` (false on out-of-range access, which the source
never performs). -/
def metGet (m : MetTable) (c : CarId) (i : ℕ) : Bool :=
  ((aLookup m c).getD []).getD i false

/-- `requirements_met[c][i] = True`. -/
def metSet (m : MetTable) (c : CarId) (i : ℕ) : MetTable :=
  match m with
  | [] => []
  | p :: rest => if p.1 = c then (p.1, p.2.set i true) :: rest else p :: metSet rest c i

/-- Scheduler state threaded through the hour loop (the per-hour port counter
is local to each hour: the `defaultdict` entry for an hour starts at 0 and is
only touched during that hour's iteration). -/
structure SchedSt where
  schedule : Schedule
  requirements_met : MetTable
deriving DecidableEq

/-- A candidate tuple `(car_id, req_index, energy_kwh, max_rate_kw)`;
`req_index = -1` marks the opportunistic (no-requirements) case. -/
structure Cand where
  car : CarId
  req_index : ℤ
  energy_kwh : ℚ
  max_rate_kw : ℚ
deriving DecidableEq, Inhabited

/-- The requirement scan of lines 84–87: first index `i` (counting from the
accumulator) whose requirement is unmet and whose eligibility window contains
`hour`. -/
def firstNeed (flags : List Bool) (hour : ℕ) (c : CarId) :
    ℕ → List Req → Option Cand
  | _, [] => none
  | i, r :: rest =>
    if flags.getD i false = false ∧ r.prior_day_start ≤ hour ∧ hour < r.prior_day_end then
      some ⟨c, (i : ℤ), r.energy_kwh, r.max_rate_kw⟩
    else firstNeed flags hour c (i + 1) rest

/-- The `car_needs` list built in lines 78–87 for the given available cars. -/
def carNeedsAt (energy_needs : Needs) (met : MetTable) (cars_dict : Cars)
    (avail_cars : List CarId) (hour : ℕ) : List Cand :=
  avail_cars.filterMap (fun c =>
    match aLookup energy_needs c with
    | none => some ⟨c, -1, 0, (carsGet cars_dict c).max_charge_rate_kW⟩
    | some rs => firstNeed ((aLookup met c).getD []) hour c 0 rs)

/-- Sort key order of `sorted(..., key=lambda x: (x[2], -x[3]))`: ascending
energy, ties by descending max rate. -/
def needsRel (a b : Cand) : Prop :=
  a.energy_kwh < b.energy_kwh ∨ (a.energy_kwh = b.energy_kwh ∧ b.max_rate_kw ≤ a.max_rate_kw)

/-- Sort key order of `sorted(..., key=lambda x: -x[3])`: descending max rate. -/
def oppRel (a b : Cand) : Prop :=
  b.max_rate_kw ≤ a.max_rate_kw

instance : DecidableRel needsRel := fun a b => by unfold needsRel; infer_instance

instance : DecidableRel oppRel := fun a b => by unfold oppRel; infer_instance

instance : IsTrans Cand needsRel where
  trans a b c hab hbc := by
    rcases hab with h1 | ⟨h1, h2⟩ <;> rcases hbc with h3 | ⟨h3, h4⟩
    · exact Or.inl (h1.trans h3)
    · exact Or.inl (lt_of_lt_of_le h1 (le_of_eq h3))
    · exact Or.inl (lt_of_le_of_lt (le_of_eq h1) h3)
    · exact Or.inr ⟨h1.trans h3, h4.trans h2⟩

instance : IsTotal Cand needsRel where
  total a b := by
    rcases lt_trichotomy a.energy_kwh b.energy_kwh with h | h | h
    · exact Or.inl (Or.inl h)
    · rcases le_total b.max_rate_kw a.max_rate_kw with hr | hr
      · exact Or.inl (Or.inr ⟨h, hr⟩)
      · exact Or.inr (Or.inr ⟨h.symm, hr⟩)
    · exact Or.inr (Or.inl h)

instance : IsTrans Cand oppRel where
  trans _ _ _ hab hbc := le_trans hbc hab

instance : IsTotal Cand oppRel where
  total a b := le_total b.max_rate_kw a.max_rate_kw

/-- Lines 89–92: needs group (energy > 0) sorted ascending by (energy, −rate),
then opportunistic group (energy == 0) sorted descending by rate.  Python's
`sorted` is stable; `insertionSort` is stable, so for these total preorders it
returns the same list.  Candidates with negative energy fall in neither group. -/
def prioritize (l : List Cand) : List Cand :=
  (l.filter (fun c => decide (0 < c.energy_kwh))).insertionSort needsRel
    ++ (l.filter (fun c => decide (c.energy_kwh = 0))).insertionSort oppRel

/-- `energy_needs[c][i]` (total via a default; the source only evaluates it at
indices produced by the scan, where it is defined). -/
def reqAt (energy_needs : Needs) (c : CarId) (i : ℕ) : Req :=
  ((aLookup energy_needs c).getD []).getD i default

/-- `sum(p for h, p, _ in sessions if start <= h < end)` for the window of `r`. -/
def windowSum (sessions : List Session) (r : Req) : ℚ :=
  ((sessions.filter (fun s =>
    decide (r.prior_day_start ≤ s.hour ∧ s.hour < r.prior_day_end))).map
      Session.power_kw).sum

/-- The assignment loop of lines 95–118 over the truncated candidate list,
with the running per-hour port counter `cnt`. -/
def assignLoop (energy_needs : Needs) (hour num_ports : ℕ) :
    List Cand → SchedSt → ℕ → SchedSt × ℕ
  | [], st, cnt => (st, cnt)
  | cand :: rest, st, cnt =>
    if num_ports ≤ cnt then (st, cnt)
    else
      let port := cnt + 1
      if cand.energy_kwh = 0 then
        assignLoop energy_needs hour num_ports rest
          { st with schedule := ddAppend st.schedule cand.car ⟨hour, cand.max_rate_kw, port⟩ }
          (cnt + 1)
      else
        -- line 106 reads `schedule[car_id]`, creating the key if absent
        let sch1 := ddTouch st.schedule cand.car
        let r := reqAt energy_needs cand.car cand.req_index.toNat
        let delivered := windowSum (ddGet sch1 cand.car) r
        if cand.energy_kwh ≤ delivered then
          assignLoop energy_needs hour num_ports rest
            { schedule := sch1
              requirements_met := metSet st.requirements_met cand.car cand.req_index.toNat }
            cnt
        else
          let power := min cand.max_rate_kw (cand.energy_kwh - delivered)
          let met1 :=
            if cand.energy_kwh ≤ delivered + power then
              metSet st.requirements_met cand.car cand.req_index.toNat
            else st.requirements_met
          assignLoop energy_needs hour num_ports rest
            { schedule := ddAppend sch1 cand.car ⟨hour, power, port⟩
              requirements_met := met1 }
            (cnt + 1)

/-- The `energy_delivered` amount of lines 106–107 for a candidate in state
`st` (the `schedule[car_id]` read has already created the key). -/
def deliveredFor (energy_needs : Needs) (st : SchedSt) (cand : Cand) : ℚ :=
  windowSum (ddGet (ddTouch st.schedule cand.car) cand.car)
    (reqAt energy_needs cand.car cand.req_index.toNat)

/-- The sorted candidate list the scheduler builds for one hour. -/
def hourCandidates (energy_needs : Needs) (availability : Availability)
    (cars_dict : Cars) (met : MetTable) (hour : ℕ) : List Cand :=
  prioritize (carNeedsAt energy_needs met cars_dict
    (availability.index.filter (fun c => availability.avail c hour)) hour)

/-- One iteration of the hour loop (lines 71–118): hours without an
availability column are skipped entirely. -/
def schedHour (energy_needs : Needs) (availability : Availability)
    (cars_dict : Cars) (num_ports : ℕ) (st : SchedSt) (hour : ℕ) : SchedSt :=
  if hour ∈ availability.hours then
    (assignLoop energy_needs hour num_ports
      ((hourCandidates energy_needs availability cars_dict st.requirements_met hour).take
        num_ports)
      st 0).1
  else st

/-- `schedule_charging` with its full final state (the returned `schedule`
dict plus the `requirements_met` flag table the spec calls the satisfaction
flags).  `price_dict` is accepted and unused, as in the source. -/
def schedule_charging_full (energy_needs : Needs) (availability : Availability)
    (price_dict : List (ℕ × ℚ)) (cars_dict : Cars)
    (num_ports total_hours : ℕ) : SchedSt :=
  (List.range' 18 (total_hours - 18)).foldl
    (schedHour energy_needs availability cars_dict num_ports)
    { schedule := [], requirements_met := metInit energy_needs }

/-- The value `schedule_charging` returns. -/
def schedule_charging (energy_needs : Needs) (availability : Availability)
    (price_dict : List (ℕ × ℚ)) (cars_dict : Cars)
    (num_ports total_hours : ℕ) : Schedule :=
  (schedule_charging_full energy_needs availability price_dict cars_dict
    num_ports total_hours).schedule

/-! ## SoC/Cost Simulator (`compute_costs_and_soc`) -/

/-- `price_dict.get(hour, 0.40)`. -/
def priceGet (price_dict : List (ℕ × ℚ)) (h : ℕ) : ℚ :=
  ((price_dict.lookup h).getD 0.40)

/-- Per-car simulation state: current SoC plus the accumulated hourly trace
`(day, hour, power, soc)` and cost records `(day, hour, cost)`. -/
structure SimSt where
  soc : ℚ
  trace : List (ℕ × ℕ × ℚ × ℚ)
  costs : List (ℕ × ℕ × ℚ)
deriving DecidableEq

/-- One iteration of the inner hour loop of `compute_costs_and_soc`
(lines 136–158); the unused `session_dict` of line 134 is omitted. -/
def simHour (energy_needs : Needs) (price_dict : List (ℕ × ℚ))
    (capacity initial_soc : ℚ) (c : CarId) (sessions : List Session)
    (st : SimSt) (hour : ℕ) : SimSt :=
  let day := min ((hour - 18) / 24) 5
  let soc0 :=
    if aLookup energy_needs c = none ∧ hour = 18 + day * 24 then initial_soc else st.soc
  let soc1 :=
    if ((aLookup energy_needs c).getD []).any (fun r => r.deadline_hour == hour) then
      initial_soc
    else soc0
  let power := ((sessions.find? (fun s => s.hour == hour)).map Session.power_kw).getD 0
  let soc2 := min 1 (soc1 + power * 0.95 / capacity)
  { soc := soc2
    trace := st.trace ++ [(day, hour, power, soc2)]
    costs :=
      if 0 < power then st.costs ++ [(day, hour, power * priceGet price_dict hour)]
      else st.costs }

/-- The whole per-car replay over the hardcoded `range(18, 168)`. -/
def simCar (energy_needs : Needs) (price_dict : List (ℕ × ℚ))
    (capacity initial_soc : ℚ) (c : CarId) (sessions : List Session) : SimSt :=
  (List.range' 18 150).foldl
    (simHour energy_needs price_dict capacity initial_soc c sessions)
    { soc := initial_soc, trace := [], costs := [] }

/-- Result triple of `compute_costs_and_soc`. -/
structure SimOut where
  cost_summary : List (CarId × List (ℕ × ℕ × ℚ))
  final_soc : List (CarId × ℚ)
  hourly_soc : List (CarId × List (ℕ × ℕ × ℚ × ℚ))

/-- `compute_costs_and_soc(schedule, cars_dict, price_dict, energy_needs,
initial_soc)`: iterates over the *schedule's* keys; `final_soc` is built once
from the roster keys and never updated; the two `defaultdict` outputs hold a
key iff something was appended for it (the trace always is, 150 times; a cost
record only for hours with positive power). -/
def compute_costs_and_soc (schedule : Schedule) (cars_dict : Cars)
    (price_dict : List (ℕ × ℚ)) (energy_needs : Needs) (initial_soc : ℚ) : SimOut :=
  { cost_summary := schedule.filterMap (fun p =>
      let r := simCar energy_needs price_dict (carsGet cars_dict p.1).capacity_kWh
        initial_soc p.1 p.2
      if r.costs.isEmpty then none else some (p.1, r.costs))
    final_soc := cars_dict.map (fun p => (p.1, initial_soc))
    hourly_soc := schedule.map (fun p =>
      (p.1, (simCar energy_needs price_dict (carsGet cars_dict p.1).capacity_kWh
        initial_soc p.1 p.2).trace)) }

/-! ## Concrete scenario inputs -/

/-- Scenario of §8: one vehicle, capacity 50 kWh, max rate 11 kW. -/
def cars1 : Cars := [("EV1", ⟨50, 11⟩)]

/-- Day-0 requirement: target SoC 0.8 by "07:00". -/
def reqs1 : Requirements := [("EV1", [(0, [("07:00", 0.8)])])]

/-- Full availability for `EV1` over the whole week. -/
def av1 : Availability := ⟨List.range' 18 150, ["EV1"], fun _ _ => true⟩

/-- Derived needs for the §8 scenario. -/
def needs1 : Needs := calculate_energy_needs cars1 reqs1 0.2

/-- Scheduler run for the §8 scenario: 1 port, horizon through the whole
eligibility window (the window closes at hour 24, after which the scenario's
single requirement can draw nothing more, so the schedule equals the week-long
run's). -/
def run1 : SchedSt := schedule_charging_full needs1 av1 [] cars1 1 24

/-- Simulator run for the §8 scenario. -/
def sim1 : SimOut := compute_costs_and_soc run1.schedule cars1 [] needs1 0.2

/-- §8 scenario state after hours 18 and 19 only. -/
def run1pre : SchedSt := schedule_charging_full needs1 av1 [] cars1 1 20

/-- §8 scenario state after hours 18, 19 and 20. -/
def run1mid : SchedSt := schedule_charging_full needs1 av1 [] cars1 1 21

/-- Priority scenario: needs-vehicle `N` (rate 7) and opportunistic `O`
(rate 22). -/
def cars3 : Cars := [("N", ⟨50, 7⟩), ("O", ⟨60, 22⟩)]

/-- `N` needs 5 kWh on day 0: target `59/200 = 0.2 + 5·0.95/50`. -/
def reqs3 : Requirements := [("N", [(0, [("07:00", 59/200)])])]

/-- Both cars available; `O` listed first so that priority, not input order,
decides. -/
def av3 : Availability := ⟨List.range' 18 150, ["O", "N"], fun _ _ => true⟩

/-- Derived needs for the priority scenario. -/
def needs3 : Needs := calculate_energy_needs cars3 reqs3 0.2

/-- Scheduler run for the priority scenario: 1 port, bird's-eye horizon of the
single hour 18. -/
def run3 : SchedSt := schedule_charging_full needs3 av3 [] cars3 1 19

/-- Truncation scenario: `A` has two day-0 requirements (10 kWh then 5 kWh),
`B` and `C` are opportunistic. -/
def cars5 : Cars := [("A", ⟨50, 10⟩), ("B", ⟨50, 22⟩), ("C", ⟨50, 5⟩)]

/-- Targets `39/100` (10 kWh) and `59/200` (5 kWh), both day 0. -/
def reqs5 : Requirements := [("A", [(0, [("06:00", 39/100), ("05:00", 59/200)])])]

/-- All three vehicles available every hour. -/
def av5 : Availability := ⟨List.range' 18 150, ["A", "B", "C"], fun _ _ => true⟩

/-- Derived needs for the truncation scenario. -/
def needs5 : Needs := calculate_energy_needs cars5 reqs5 0.2

/-- State after hour 18 only (2 ports). -/
def run5pre : SchedSt := schedule_charging_full needs5 av5 [] cars5 2 19

/-- State after hours 18 and 19 (2 ports). -/
def run5 : SchedSt := schedule_charging_full needs5 av5 [] cars5 2 20

/-- The sorted candidate list the scheduler faces at hour 19 of the
truncation scenario. -/
def cands5At19 : List Cand :=
  hourCandidates needs5 av5 cars5 run5pre.requirements_met 19

/-- Zero-need scenario: `Z`'s day-0 target equals the initial SoC, so its
derived energy need is exactly 0. -/
def carsZ : Cars := [("Z", ⟨50, 11⟩)]

/-- Day-0 target 0.2 = initial SoC. -/
def reqsZ : Requirements := [("Z", [(0, [("07:00", 0.2)])])]

/-- `Z` always available. -/
def avZ : Availability := ⟨List.range' 18 150, ["Z"], fun _ _ => true⟩

/-- Derived needs for the zero-need scenario. -/
def needsZ : Needs := calculate_energy_needs carsZ reqsZ 0.2

/-- Scheduler run for the zero-need scenario over its whole eligibility
window (hours 18–23). -/
def runZ : SchedSt := schedule_charging_full needsZ avZ [] carsZ 1 24

/-- Roster for the missing-trace scenario: `X` exists but is never available. -/
def carsX : Cars := [("X", ⟨50, 11⟩)]

/-- Availability matrix with no columns and no rows. -/
def avX : Availability := ⟨[], [], fun _ _ => false⟩

/-- The empty schedule the scheduler produces for `X`. -/
def runX : SchedSt := schedule_charging_full [] avX [] carsX 3 168

/-- Simulator output for the missing-trace scenario. -/
def simX : SimOut := compute_costs_and_soc runX.schedule carsX [] [] 0.2

/-- Negative-need input: target 0.1 lies in [0, 1] but below the initial SoC
0.2. -/
def reqs7 : Requirements := [("EV1", [(0, [("07:00", 0.1)])])]

/-! ## Observables used in the claim statements -/

/-- Number of sessions recorded at absolute hour `h`, summed across all
vehicles of the schedule. -/
def countAt (sch : Schedule) (h : ℕ) : ℕ :=
  (sch.map (fun p => (p.2.filter (fun s => s.hour == h)).length)).sum

/-- Number of sessions vehicle `c` holds at absolute hour `h`. -/
def carCountAt (sch : Schedule) (c : CarId) (h : ℕ) : ℕ :=
  ((ddGet sch c).filter (fun s => s.hour == h)).length

/-- Physical well-formedness of derived needs: no negative charge rate. -/
def RatesOk (needs : Needs) : Prop :=
  ∀ p ∈ needs, ∀ r ∈ p.2, 0 ≤ r.max_rate_kw

instance (needs : Needs) : Decidable (RatesOk needs) := by
  unfold RatesOk; infer_instance

/-- Every candidate the scheduler builds at hour `h` is either the
opportunistic tuple of a vehicle absent from `energy_needs`, or carries the
fields of an actual requirement of its vehicle whose window contains `h`. -/
def CandOkAt (needs : Needs) (h : ℕ) (cand : Cand) : Prop :=
  (cand.req_index = -1 ∧ aLookup needs cand.car = none ∧ cand.energy_kwh = 0) ∨
  (∃ rs r, aLookup needs cand.car = some rs ∧
    rs[cand.req_index.toNat]? = some r ∧
    cand.energy_kwh = r.energy_kwh ∧ cand.max_rate_kw = r.max_rate_kw ∧
    r.prior_day_start ≤ h ∧ h < r.prior_day_end)

/-- Soundness invariant of the satisfaction flags: each flagged requirement
has already been delivered at least its energy need within its window. -/
def MetInv (needs : Needs) (st : SchedSt) : Prop :=
  ∀ c rs i r, aLookup needs c = some rs → rs[i]? = some r →
    metGet st.requirements_met c i = true →
    r.energy_kwh ≤ windowSum (ddGet st.schedule c) r

/-- A requirement whose energy need is exactly 0 never has its flag set. -/
def ZeroUnmet (needs : Needs) (st : SchedSt) : Prop :=
  ∀ c rs i r, aLookup needs c = some rs → rs[i]? = some r →
    r.energy_kwh = 0 → metGet st.requirements_met c i = false

/-! ## Association-list and dictionary lemmas -/

theorem aLookup_nil {β : Type} (c : CarId) : aLookup ([] : List (CarId × β)) c = none := rfl

theorem aLookup_cons {β : Type} (k : CarId) (v : β) (rest : List (CarId × β)) (c : CarId) :
    aLookup ((k, v) :: rest) c = if k = c then some v else aLookup rest c := rfl

theorem aLookup_append_of_none {β : Type} {l1 : List (CarId × β)} {c : CarId}
    (h : aLookup l1 c = none) (l2 : List (CarId × β)) :
    aLookup (l1 ++ l2) c = aLookup l2 c := by
  induction l1 with
  | nil => rfl
  | cons p rest ih =>
    obtain ⟨k, v⟩ := p
    rw [aLookup_cons] at h
    by_cases hp : k = c
    · rw [if_pos hp] at h; exact absurd h (by simp)
    · rw [if_neg hp] at h
      rw [List.cons_append, aLookup_cons, if_neg hp]
      exact ih h

theorem aLookup_append_of_some {β : Type} {l1 : List (CarId × β)} {c : CarId} {v : β}
    (h : aLookup l1 c = some v) (l2 : List (CarId × β)) :
    aLookup (l1 ++ l2) c = some v := by
  induction l1 with
  | nil => exact absurd h (by simp [aLookup_nil])
  | cons p rest ih =>
    obtain ⟨k, w⟩ := p
    rw [aLookup_cons] at h
    rw [List.cons_append, aLookup_cons]
    by_cases hp : k = c
    · rwa [if_pos hp] at h ⊢
    · rw [if_neg hp] at h ⊢; exact ih h

theorem aLookup_mem {β : Type} {l : List (CarId × β)} {c : CarId} {v : β}
    (h : aLookup l c = some v) : (c, v) ∈ l := by
  induction l with
  | nil => exact absurd h (by simp [aLookup_nil])
  | cons p rest ih =>
    obtain ⟨k, w⟩ := p
    rw [aLookup_cons] at h
    by_cases hp : k = c
    · rw [if_pos hp] at h
      subst hp
      obtain rfl : w = v := by simpa using h
      exact List.mem_cons_self _ _
    · rw [if_neg hp] at h
      exact List.mem_cons_of_mem _ (ih h)

theorem aLookup_map {β γ : Type} (g : CarId → β → γ) (l : List (CarId × β)) (c : CarId) :
    aLookup (l.map (fun p => (p.1, g p.1 p.2))) c = (aLookup l c).map (g c) := by
  induction l with
  | nil => rfl
  | cons p rest ih =>
    obtain ⟨k, v⟩ := p
    by_cases h : k = c
    · subst h; simp [aLookup_cons]
    · simp [aLookup_cons, h, ih]

theorem metSet_cons (k : CarId) (l : List Bool) (rest : MetTable) (c : CarId) (i : ℕ) :
    metSet ((k, l) :: rest) c i =
      if k = c then (k, l.set i true) :: rest else (k, l) :: metSet rest c i := rfl

theorem metGet_metInit (needs : Needs) (c : CarId) (i : ℕ) :
    metGet (metInit needs) c i = false := by
  induction needs with
  | nil => simp [metGet, metInit, aLookup_nil]
  | cons p rest ih =>
    obtain ⟨k, rs⟩ := p
    by_cases h : k = c
    · subst h
      simp [metGet, metInit, aLookup_cons, List.getD_eq_getElem?_getD]
    · simpa [metGet, metInit, aLookup_cons, h] using ih

theorem metGet_metSet_ne (m : MetTable) {c c' : CarId} {i i' : ℕ}
    (h : ¬(c = c' ∧ i = i')) :
    metGet (metSet m c i) c' i' = metGet m c' i' := by
  induction m with
  | nil => rfl
  | cons p rest ih =>
    obtain ⟨k, l⟩ := p
    rw [metSet_cons]
    by_cases hp : k = c
    · rw [if_pos hp]
      by_cases hc : c = c'
      · have hi : i ≠ i' := fun he => h ⟨hc, he⟩
        subst hc hp
        simp [metGet, aLookup_cons, List.getD_eq_getElem?_getD, List.getElem?_set_ne hi]
      · have hk : k ≠ c' := by rw [hp]; exact hc
        simp [metGet, aLookup_cons, hk]
    · rw [if_neg hp]
      by_cases hc : k = c'
      · simp [metGet, aLookup_cons, hc]
      · simpa [metGet, aLookup_cons, hc] using ih

theorem metGet_metSet_cases (m : MetTable) (c c' : CarId) (i i' : ℕ)
    (ht : metGet (metSet m c i) c' i' = true) :
    (c = c' ∧ i = i') ∨ metGet m c' i' = true := by
  by_cases h : c = c' ∧ i = i'
  · exact Or.inl h
  · right; rw [metGet_metSet_ne m h] at ht; exact ht

theorem ddGet_ddTouch (sch : Schedule) (c c' : CarId) :
    ddGet (ddTouch sch c) c' = ddGet sch c' := by
  unfold ddTouch
  split
  · rfl
  · unfold ddGet
    cases hl : aLookup sch c' with
    | some v => rw [aLookup_append_of_some hl]
    | none =>
      rw [aLookup_append_of_none hl]
      by_cases hc : c = c'
      · simp [aLookup, hc]
      · simp [aLookup, hc]

theorem ddAppend_cons (k : CarId) (l : List Session) (rest : Schedule) (c : CarId)
    (s : Session) :
    ddAppend ((k, l) :: rest) c s =
      if k = c then (k, l ++ [s]) :: rest else (k, l) :: ddAppend rest c s := rfl

theorem ddGet_ddAppend_self (sch : Schedule) (c : CarId) (s : Session) :
    ddGet (ddAppend sch c s) c = ddGet sch c ++ [s] := by
  induction sch with
  | nil => simp [ddAppend, ddGet, aLookup_cons, aLookup_nil]
  | cons p rest ih =>
    obtain ⟨k, l⟩ := p
    rw [ddAppend_cons]
    by_cases h : k = c
    · simp [ddGet, aLookup_cons, h]
    · simpa [ddGet, aLookup_cons, h] using ih

theorem ddGet_ddAppend_ne (sch : Schedule) {c c' : CarId} (h : c ≠ c') (s : Session) :
    ddGet (ddAppend sch c s) c' = ddGet sch c' := by
  induction sch with
  | nil => simp [ddAppend, ddGet, aLookup_cons, aLookup_nil, h]
  | cons p rest ih =>
    obtain ⟨k, l⟩ := p
    rw [ddAppend_cons]
    by_cases hp : k = c
    · rw [if_pos hp]
      have hk : k ≠ c' := by rw [hp]; exact h
      simp [ddGet, aLookup_cons, hk]
    · rw [if_neg hp]
      by_cases hc : k = c'
      · simp [ddGet, aLookup_cons, hc]
      · simpa [ddGet, aLookup_cons, hc] using ih

theorem countAt_ddAppend (sch : Schedule) (c : CarId) (s : Session) (h : ℕ) :
    countAt (ddAppend sch c s) h = countAt sch h + (if s.hour == h then 1 else 0) := by
  induction sch with
  | nil => cases hs : s.hour == h <;> simp [ddAppend, countAt, hs]
  | cons p rest ih =>
    obtain ⟨k, l⟩ := p
    rw [ddAppend_cons]
    by_cases hp : k = c
    · rw [if_pos hp]
      cases hs : s.hour == h <;>
        simp [countAt, List.filter_append, hs] <;> omega
    · rw [if_neg hp]
      simp only [countAt, List.map_cons, List.sum_cons] at ih ⊢
      omega

theorem countAt_ddTouch (sch : Schedule) (c : CarId) (h : ℕ) :
    countAt (ddTouch sch c) h = countAt sch h := by
  unfold ddTouch
  split
  · rfl
  · simp [countAt]

/-! ## Branch equations for the assignment loop -/

theorem assignLoop_nil (energy_needs : Needs) (hour num_ports : ℕ) (st : SchedSt)
    (cnt : ℕ) :
    assignLoop energy_needs hour num_ports [] st cnt = (st, cnt) := rfl

theorem assignLoop_stop (energy_needs : Needs) (hour num_ports : ℕ) (cand : Cand)
    (rest : List Cand) (st : SchedSt) (cnt : ℕ) (hg : num_ports ≤ cnt) :
    assignLoop energy_needs hour num_ports (cand :: rest) st cnt = (st, cnt) := by
  rw [assignLoop]
  simp only [if_pos hg]

theorem assignLoop_cons_opp (energy_needs : Needs) (hour num_ports : ℕ) (cand : Cand)
    (rest : List Cand) (st : SchedSt) (cnt : ℕ) (hg : cnt < num_ports)
    (he : cand.energy_kwh = 0) :
    assignLoop energy_needs hour num_ports (cand :: rest) st cnt =
      assignLoop energy_needs hour num_ports rest
        ⟨ddAppend st.schedule cand.car ⟨hour, cand.max_rate_kw, cnt + 1⟩,
         st.requirements_met⟩ (cnt + 1) := by
  rw [assignLoop]
  simp only [if_neg (Nat.not_le.mpr hg), if_pos he]

theorem assignLoop_cons_skip (energy_needs : Needs) (hour num_ports : ℕ) (cand : Cand)
    (rest : List Cand) (st : SchedSt) (cnt : ℕ) (hg : cnt < num_ports)
    (he : ¬cand.energy_kwh = 0) (hd : cand.energy_kwh ≤ deliveredFor energy_needs st cand) :
    assignLoop energy_needs hour num_ports (cand :: rest) st cnt =
      assignLoop energy_needs hour num_ports rest
        ⟨ddTouch st.schedule cand.car,
         metSet st.requirements_met cand.car cand.req_index.toNat⟩ cnt := by
  rw [assignLoop]
  simp only [deliveredFor] at hd
  simp only [if_neg (Nat.not_le.mpr hg), if_neg he, if_pos hd]

theorem assignLoop_cons_assign (energy_needs : Needs) (hour num_ports : ℕ) (cand : Cand)
    (rest : List Cand) (st : SchedSt) (cnt : ℕ) (hg : cnt < num_ports)
    (he : ¬cand.energy_kwh = 0)
    (hd : ¬cand.energy_kwh ≤ deliveredFor energy_needs st cand) :
    assignLoop energy_needs hour num_ports (cand :: rest) st cnt =
      assignLoop energy_needs hour num_ports rest
        ⟨ddAppend (ddTouch st.schedule cand.car) cand.car
          ⟨hour,
           min cand.max_rate_kw (cand.energy_kwh - deliveredFor energy_needs st cand),
           cnt + 1⟩,
         if cand.energy_kwh ≤ deliveredFor energy_needs st cand +
             min cand.max_rate_kw (cand.energy_kwh - deliveredFor energy_needs st cand) then
           metSet st.requirements_met cand.car cand.req_index.toNat
         else st.requirements_met⟩ (cnt + 1) := by
  rw [assignLoop]
  simp only [deliveredFor] at hd ⊢
  simp only [if_neg (Nat.not_le.mpr hg), if_neg he, if_neg hd]

/-! ## Port-capacity bounds (claim C2) -/

theorem countAt_assignLoop_ne (energy_needs : Needs) (hour num_ports : ℕ)
    (l : List Cand) {h' : ℕ} (hne : h' ≠ hour) :
    ∀ (st : SchedSt) (cnt : ℕ),
      countAt (assignLoop energy_needs hour num_ports l st cnt).1.schedule h' =
        countAt st.schedule h' := by
  have hbeq : (hour == h') = false := beq_eq_false_iff_ne.mpr (Ne.symm hne)
  induction l with
  | nil => intro st cnt; rw [assignLoop_nil]
  | cons cand rest ih =>
    intro st cnt
    by_cases hg : num_ports ≤ cnt
    · rw [assignLoop_stop _ _ _ _ _ _ _ hg]
    · have hg' : cnt < num_ports := Nat.lt_of_not_le hg
      by_cases he : cand.energy_kwh = 0
      · rw [assignLoop_cons_opp _ _ _ _ _ _ _ hg' he, ih]
        simp [countAt_ddAppend, hbeq]
      · by_cases hd : cand.energy_kwh ≤ deliveredFor energy_needs st cand
        · rw [assignLoop_cons_skip _ _ _ _ _ _ _ hg' he hd, ih]
          simp [countAt_ddTouch]
        · rw [assignLoop_cons_assign _ _ _ _ _ _ _ hg' he hd, ih]
          simp [countAt_ddAppend, countAt_ddTouch, hbeq]

theorem countAt_assignLoop_le (energy_needs : Needs) (hour num_ports : ℕ)
    (l : List Cand) :
    ∀ (st : SchedSt) (cnt : ℕ), cnt ≤ num_ports →
      countAt (assignLoop energy_needs hour num_ports l st cnt).1.schedule hour ≤
        countAt st.schedule hour + (num_ports - cnt) := by
  induction l with
  | nil => intro st cnt _; rw [assignLoop_nil]; dsimp only; omega
  | cons cand rest ih =>
    intro st cnt hle
    by_cases hg : num_ports ≤ cnt
    · rw [assignLoop_stop _ _ _ _ _ _ _ hg]; dsimp only; omega
    · have hg' : cnt < num_ports := Nat.lt_of_not_le hg
      by_cases he : cand.energy_kwh = 0
      · rw [assignLoop_cons_opp _ _ _ _ _ _ _ hg' he]
        have := ih ⟨ddAppend st.schedule cand.car ⟨hour, cand.max_rate_kw, cnt + 1⟩,
          st.requirements_met⟩ (cnt + 1) hg'
        simp only [countAt_ddAppend] at this
        simp only [beq_self_eq_true, if_true] at this
        omega
      · by_cases hd : cand.energy_kwh ≤ deliveredFor energy_needs st cand
        · rw [assignLoop_cons_skip _ _ _ _ _ _ _ hg' he hd]
          have := ih ⟨ddTouch st.schedule cand.car,
            metSet st.requirements_met cand.car cand.req_index.toNat⟩ cnt hle
          simpa [countAt_ddTouch] using this
        · rw [assignLoop_cons_assign _ _ _ _ _ _ _ hg' he hd]
          have := ih ⟨ddAppend (ddTouch st.schedule cand.car) cand.car
            ⟨hour, min cand.max_rate_kw (cand.energy_kwh - deliveredFor energy_needs st cand),
             cnt + 1⟩,
            if cand.energy_kwh ≤ deliveredFor energy_needs st cand +
                min cand.max_rate_kw (cand.energy_kwh - deliveredFor energy_needs st cand) then
              metSet st.requirements_met cand.car cand.req_index.toNat
            else st.requirements_met⟩ (cnt + 1) hg'
          simp only [countAt_ddAppend, countAt_ddTouch] at this
          simp only [beq_self_eq_true, if_true] at this
          omega

theorem countAt_schedHour_ne (energy_needs : Needs) (availability : Availability)
    (cars_dict : Cars) (num_ports : ℕ) (st : SchedSt) {h h' : ℕ} (hne : h' ≠ h) :
    countAt (schedHour energy_needs availability cars_dict num_ports st h).schedule h' =
      countAt st.schedule h' := by
  unfold schedHour
  split
  · exact countAt_assignLoop_ne _ _ _ _ hne st 0
  · rfl

theorem countAt_schedHour_le (energy_needs : Needs) (availability : Availability)
    (cars_dict : Cars) (num_ports : ℕ) (st : SchedSt) (h : ℕ) :
    countAt (schedHour energy_needs availability cars_dict num_ports st h).schedule h ≤
      countAt st.schedule h + num_ports := by
  unfold schedHour
  split
  · simpa using countAt_assignLoop_le _ _ _ _ st 0 (Nat.zero_le _)
  · omega

theorem countAt_hours_not_mem (energy_needs : Needs) (availability : Availability)
    (cars_dict : Cars) (num_ports : ℕ) (hs : List ℕ) {h : ℕ} (hn : h ∉ hs) :
    ∀ st : SchedSt,
      countAt ((hs.foldl (schedHour energy_needs availability cars_dict num_ports)
        st)).schedule h = countAt st.schedule h := by
  induction hs with
  | nil => intro st; rfl
  | cons h0 t ih =>
    intro st
    have hne : h ≠ h0 := fun he => hn (he ▸ List.mem_cons_self h0 t)
    have hnt : h ∉ t := fun ht => hn (List.mem_cons_of_mem _ ht)
    rw [List.foldl_cons, ih hnt, countAt_schedHour_ne _ _ _ _ _ hne]

theorem countAt_hours_le (energy_needs : Needs) (availability : Availability)
    (cars_dict : Cars) (num_ports : ℕ) (hs : List ℕ) (hnd : hs.Nodup) {h : ℕ} :
    ∀ st : SchedSt,
      countAt ((hs.foldl (schedHour energy_needs availability cars_dict num_ports)
        st)).schedule h ≤ countAt st.schedule h + num_ports := by
  induction hs with
  | nil => intro st; simp
  | cons h0 t ih =>
    intro st
    obtain ⟨hn0, hnt⟩ := List.nodup_cons.mp hnd
    rw [List.foldl_cons]
    by_cases hh : h = h0
    · subst hh
      rw [countAt_hours_not_mem _ _ _ _ _ hn0]
      exact countAt_schedHour_le _ _ _ _ st h
    · calc countAt _ h ≤
          countAt (schedHour energy_needs availability cars_dict num_ports st h0).schedule h
            + num_ports := ih hnt _
        _ = countAt st.schedule h + num_ports := by
            rw [countAt_schedHour_ne _ _ _ _ _ hh]

/-! ## Per-vehicle session bounds -/

theorem carCountAt_ddAppend_self (sch : Schedule) (c : CarId) (s : Session) (h : ℕ) :
    carCountAt (ddAppend sch c s) c h =
      carCountAt sch c h + (if s.hour == h then 1 else 0) := by
  unfold carCountAt
  rw [ddGet_ddAppend_self, List.filter_append]
  cases hs : s.hour == h <;> simp [hs]

theorem carCountAt_ddAppend_ne (sch : Schedule) {c c' : CarId} (h : c ≠ c')
    (s : Session) (h' : ℕ) :
    carCountAt (ddAppend sch c s) c' h' = carCountAt sch c' h' := by
  unfold carCountAt
  rw [ddGet_ddAppend_ne _ h]

theorem carCountAt_ddTouch (sch : Schedule) (c c' : CarId) (h : ℕ) :
    carCountAt (ddTouch sch c) c' h = carCountAt sch c' h := by
  unfold carCountAt
  rw [ddGet_ddTouch]

theorem firstNeed_car (flags : List Bool) (hour : ℕ) (c : CarId) :
    ∀ (i : ℕ) (rs : List Req) (cand : Cand),
      firstNeed flags hour c i rs = some cand → cand.car = c := by
  intro i rs
  induction rs generalizing i with
  | nil => intro cand h; exact absurd h (by simp [firstNeed])
  | cons r rest ih =>
    intro cand h
    rw [firstNeed] at h
    split at h
    · obtain rfl : (⟨c, (i : ℤ), r.energy_kwh, r.max_rate_kw⟩ : Cand) = cand := by
        simpa using h
      rfl
    · exact ih _ _ h

theorem carNeedsAt_map_car_sublist (energy_needs : Needs) (met : MetTable)
    (cars_dict : Cars) (hour : ℕ) :
    ∀ cs : List CarId,
      ((carNeedsAt energy_needs met cars_dict cs hour).map Cand.car).Sublist cs := by
  intro cs
  induction cs with
  | nil => simp [carNeedsAt]
  | cons c t ih =>
    unfold carNeedsAt at ih ⊢
    rw [List.filterMap_cons]
    split
    · exact ih.cons c
    · next cand heq =>
      have hcar : cand.car = c := by
        revert heq
        cases hl : aLookup energy_needs c with
        | none => intro heq; obtain rfl : _ = cand := Option.some_injective _ heq; rfl
        | some rs => intro heq; exact firstNeed_car _ _ _ _ _ _ heq
      rw [List.map_cons, hcar]
      exact ih.cons₂ c

theorem prioritize_map_car_nodup {l : List Cand} (h : (l.map Cand.car).Nodup) :
    ((prioritize l).map Cand.car).Nodup := by
  have hinj := List.inj_on_of_nodup_map h
  unfold prioritize
  rw [List.map_append]
  have hperm1 : List.Perm
      (((l.filter (fun c => decide (0 < c.energy_kwh))).insertionSort needsRel).map Cand.car)
      ((l.filter (fun c => decide (0 < c.energy_kwh))).map Cand.car) :=
    (List.perm_insertionSort _ _).map _
  have hperm2 : List.Perm
      (((l.filter (fun c => decide (c.energy_kwh = 0))).insertionSort oppRel).map Cand.car)
      ((l.filter (fun c => decide (c.energy_kwh = 0))).map Cand.car) :=
    (List.perm_insertionSort _ _).map _
  have hsub1 : ((l.filter (fun c => decide (0 < c.energy_kwh))).map Cand.car).Sublist
      (l.map Cand.car) := (List.filter_sublist l).map _
  have hsub2 : ((l.filter (fun c => decide (c.energy_kwh = 0))).map Cand.car).Sublist
      (l.map Cand.car) := (List.filter_sublist l).map _
  rw [List.nodup_append]
  refine ⟨hperm1.nodup_iff.mpr (h.sublist hsub1),
          hperm2.nodup_iff.mpr (h.sublist hsub2), ?_⟩
  intro a ha1 ha2
  have ha1' : a ∈ (l.filter (fun c => decide (0 < c.energy_kwh))).map Cand.car :=
    hperm1.mem_iff.mp ha1
  have ha2' : a ∈ (l.filter (fun c => decide (c.energy_kwh = 0))).map Cand.car :=
    hperm2.mem_iff.mp ha2
  obtain ⟨x, hxf, hxa⟩ := List.mem_map.mp ha1'
  obtain ⟨y, hyf, hya⟩ := List.mem_map.mp ha2'
  obtain ⟨hxl, hxp⟩ := List.mem_filter.mp hxf
  obtain ⟨hyl, hyp⟩ := List.mem_filter.mp hyf
  have hxy : x = y := hinj hxl hyl (by rw [hxa, hya])
  have h0 : (0 : ℚ) < x.energy_kwh := of_decide_eq_true hxp
  have h1 : y.energy_kwh = 0 := of_decide_eq_true hyp
  rw [hxy, h1] at h0
  exact lt_irrefl 0 h0

theorem carCountAt_assignLoop_not_mem (energy_needs : Needs) (hour num_ports : ℕ)
    (l : List Cand) {c : CarId} (hc : c ∉ l.map Cand.car) :
    ∀ (st : SchedSt) (cnt : ℕ) (h' : ℕ),
      carCountAt (assignLoop energy_needs hour num_ports l st cnt).1.schedule c h' =
        carCountAt st.schedule c h' := by
  induction l with
  | nil => intro st cnt h'; rw [assignLoop_nil]
  | cons cand rest ih =>
    intro st cnt h'
    have hcd : cand.car ≠ c := by
      intro he
      apply hc
      rw [List.map_cons, he]
      exact List.mem_cons_self _ _
    have hct : c ∉ rest.map Cand.car := by
      intro ht
      apply hc
      rw [List.map_cons]
      exact List.mem_cons_of_mem _ ht
    by_cases hg : num_ports ≤ cnt
    · rw [assignLoop_stop _ _ _ _ _ _ _ hg]
    · have hg' : cnt < num_ports := Nat.lt_of_not_le hg
      by_cases he : cand.energy_kwh = 0
      · rw [assignLoop_cons_opp _ _ _ _ _ _ _ hg' he, ih hct]
        exact carCountAt_ddAppend_ne _ hcd _ _
      · by_cases hd : cand.energy_kwh ≤ deliveredFor energy_needs st cand
        · rw [assignLoop_cons_skip _ _ _ _ _ _ _ hg' he hd, ih hct]
          exact carCountAt_ddTouch _ _ _ _
        · rw [assignLoop_cons_assign _ _ _ _ _ _ _ hg' he hd, ih hct]
          rw [carCountAt_ddAppend_ne _ hcd, carCountAt_ddTouch]

theorem carCountAt_assignLoop_ne (energy_needs : Needs) (hour num_ports : ℕ)
    (l : List Cand) {h' : ℕ} (hne : h' ≠ hour) :
    ∀ (st : SchedSt) (cnt : ℕ) (c : CarId),
      carCountAt (assignLoop energy_needs hour num_ports l st cnt).1.schedule c h' =
        carCountAt st.schedule c h' := by
  have hbeq : (hour == h') = false := beq_eq_false_iff_ne.mpr (Ne.symm hne)
  induction l with
  | nil => intro st cnt c; rw [assignLoop_nil]
  | cons cand rest ih =>
    intro st cnt c
    by_cases hg : num_ports ≤ cnt
    · rw [assignLoop_stop _ _ _ _ _ _ _ hg]
    · have hg' : cnt < num_ports := Nat.lt_of_not_le hg
      by_cases he : cand.energy_kwh = 0
      · rw [assignLoop_cons_opp _ _ _ _ _ _ _ hg' he, ih]
        by_cases hcc : cand.car = c
        · subst hcc; rw [carCountAt_ddAppend_self]; simp [hbeq]
        · rw [carCountAt_ddAppend_ne _ hcc]
      · by_cases hd : cand.energy_kwh ≤ deliveredFor energy_needs st cand
        · rw [assignLoop_cons_skip _ _ _ _ _ _ _ hg' he hd, ih]
          exact carCountAt_ddTouch _ _ _ _
        · rw [assignLoop_cons_assign _ _ _ _ _ _ _ hg' he hd, ih]
          by_cases hcc : cand.car = c
          · subst hcc
            rw [carCountAt_ddAppend_self, carCountAt_ddTouch]
            simp [hbeq]
          · rw [carCountAt_ddAppend_ne _ hcc, carCountAt_ddTouch]

theorem carCountAt_assignLoop_le (energy_needs : Needs) (hour num_ports : ℕ)
    (l : List Cand) (hnd : (l.map Cand.car).Nodup) :
    ∀ (st : SchedSt) (cnt : ℕ) (c : CarId),
      carCountAt (assignLoop energy_needs hour num_ports l st cnt).1.schedule c hour ≤
        carCountAt st.schedule c hour + (if c ∈ l.map Cand.car then 1 else 0) := by
  induction l with
  | nil => intro st cnt c; rw [assignLoop_nil]; simp
  | cons cand rest ih =>
    intro st cnt c
    rw [List.map_cons] at hnd
    obtain ⟨hn0, hnt⟩ := List.nodup_cons.mp hnd
    by_cases hg : num_ports ≤ cnt
    · rw [assignLoop_stop _ _ _ _ _ _ _ hg]
      dsimp only
      split <;> omega
    · have hg' : cnt < num_ports := Nat.lt_of_not_le hg
      have hmem : ∀ c', c' ∈ rest.map Cand.car → c' ∈ (cand :: rest).map Cand.car :=
        fun c' hc' => by rw [List.map_cons]; exact List.mem_cons_of_mem _ hc'
      by_cases hcc : cand.car = c
      · subst hcc
        have hrest : cand.car ∉ rest.map Cand.car := hn0
        have hin : cand.car ∈ (cand :: rest).map Cand.car := by
          rw [List.map_cons]; exact List.mem_cons_self _ _
        rw [if_pos hin]
        by_cases he : cand.energy_kwh = 0
        · rw [assignLoop_cons_opp _ _ _ _ _ _ _ hg' he,
            carCountAt_assignLoop_not_mem _ _ _ _ hrest]
          rw [carCountAt_ddAppend_self]
          simp
        · by_cases hd : cand.energy_kwh ≤ deliveredFor energy_needs st cand
          · rw [assignLoop_cons_skip _ _ _ _ _ _ _ hg' he hd,
              carCountAt_assignLoop_not_mem _ _ _ _ hrest, carCountAt_ddTouch]
            omega
          · rw [assignLoop_cons_assign _ _ _ _ _ _ _ hg' he hd,
              carCountAt_assignLoop_not_mem _ _ _ _ hrest,
              carCountAt_ddAppend_self, carCountAt_ddTouch]
            simp
      · have hif : (if c ∈ rest.map Cand.car then 1 else 0) ≤
            (if c ∈ (cand :: rest).map Cand.car then (1 : ℕ) else 0) := by
          by_cases hcr : c ∈ rest.map Cand.car
          · rw [if_pos hcr, if_pos (hmem _ hcr)]
          · rw [if_neg hcr]; split <;> omega
        by_cases he : cand.energy_kwh = 0
        · rw [assignLoop_cons_opp _ _ _ _ _ _ _ hg' he]
          have := ih hnt ⟨ddAppend st.schedule cand.car ⟨hour, cand.max_rate_kw, cnt + 1⟩,
            st.requirements_met⟩ (cnt + 1) c
          rw [carCountAt_ddAppend_ne _ hcc] at this
          omega
        · by_cases hd : cand.energy_kwh ≤ deliveredFor energy_needs st cand
          · rw [assignLoop_cons_skip _ _ _ _ _ _ _ hg' he hd]
            have := ih hnt ⟨ddTouch st.schedule cand.car,
              metSet st.requirements_met cand.car cand.req_index.toNat⟩ cnt c
            rw [carCountAt_ddTouch] at this
            omega
          · rw [assignLoop_cons_assign _ _ _ _ _ _ _ hg' he hd]
            have := ih hnt ⟨ddAppend (ddTouch st.schedule cand.car) cand.car
              ⟨hour, min cand.max_rate_kw
                (cand.energy_kwh - deliveredFor energy_needs st cand), cnt + 1⟩,
              if cand.energy_kwh ≤ deliveredFor energy_needs st cand +
                  min cand.max_rate_kw
                    (cand.energy_kwh - deliveredFor energy_needs st cand) then
                metSet st.requirements_met cand.car cand.req_index.toNat
              else st.requirements_met⟩ (cnt + 1) c
            rw [carCountAt_ddAppend_ne _ hcc, carCountAt_ddTouch] at this
            omega

theorem hourCandidates_map_car_nodup (energy_needs : Needs) (availability : Availability)
    (cars_dict : Cars) (met : MetTable) (hour : ℕ)
    (hidx : availability.index.Nodup) :
    ((hourCandidates energy_needs availability cars_dict met hour).map Cand.car).Nodup := by
  unfold hourCandidates
  apply prioritize_map_car_nodup
  have hsub := carNeedsAt_map_car_sublist energy_needs met cars_dict hour
    (availability.index.filter (fun c => availability.avail c hour))
  exact (hidx.filter _).sublist hsub

theorem carCountAt_schedHour_ne (energy_needs : Needs) (availability : Availability)
    (cars_dict : Cars) (num_ports : ℕ) (st : SchedSt) {h h' : ℕ} (hne : h' ≠ h)
    (c : CarId) :
    carCountAt (schedHour energy_needs availability cars_dict num_ports st h).schedule
      c h' = carCountAt st.schedule c h' := by
  unfold schedHour
  split
  · exact carCountAt_assignLoop_ne _ _ _ _ hne st 0 c
  · rfl

theorem carCountAt_schedHour_le (energy_needs : Needs) (availability : Availability)
    (cars_dict : Cars) (num_ports : ℕ) (st : SchedSt) (h : ℕ)
    (hidx : availability.index.Nodup) (c : CarId) :
    carCountAt (schedHour energy_needs availability cars_dict num_ports st h).schedule
      c h ≤ carCountAt st.schedule c h + 1 := by
  unfold schedHour
  split
  · have hnd : (((hourCandidates energy_needs availability cars_dict
        st.requirements_met h).take num_ports).map Cand.car).Nodup := by
      rw [List.map_take]
      exact (hourCandidates_map_car_nodup _ _ _ _ _ hidx).sublist
        (List.take_sublist _ _)
    have := carCountAt_assignLoop_le energy_needs h num_ports
      ((hourCandidates energy_needs availability cars_dict
        st.requirements_met h).take num_ports) hnd st 0 c
    have hone : (if c ∈ ((hourCandidates energy_needs availability cars_dict
        st.requirements_met h).take num_ports).map Cand.car then 1 else 0) ≤ 1 := by
      split <;> omega
    omega
  · omega

theorem carCountAt_hours_not_mem (energy_needs : Needs) (availability : Availability)
    (cars_dict : Cars) (num_ports : ℕ) (hs : List ℕ) {h : ℕ} (hn : h ∉ hs) (c : CarId) :
    ∀ st : SchedSt,
      carCountAt ((hs.foldl (schedHour energy_needs availability cars_dict num_ports)
        st)).schedule c h = carCountAt st.schedule c h := by
  induction hs with
  | nil => intro st; rfl
  | cons h0 t ih =>
    intro st
    have hne : h ≠ h0 := fun he => hn (he ▸ List.mem_cons_self h0 t)
    have hnt : h ∉ t := fun ht => hn (List.mem_cons_of_mem _ ht)
    rw [List.foldl_cons, ih hnt, carCountAt_schedHour_ne _ _ _ _ _ hne]

theorem carCountAt_hours_le (energy_needs : Needs) (availability : Availability)
    (cars_dict : Cars) (num_ports : ℕ) (hs : List ℕ) (hnd : hs.Nodup)
    (hidx : availability.index.Nodup) {h : ℕ} (c : CarId) :
    ∀ st : SchedSt,
      carCountAt ((hs.foldl (schedHour energy_needs availability cars_dict num_ports)
        st)).schedule c h ≤ carCountAt st.schedule c h + 1 := by
  induction hs with
  | nil => intro st; simp
  | cons h0 t ih =>
    intro st
    obtain ⟨hn0, hnt⟩ := List.nodup_cons.mp hnd
    rw [List.foldl_cons]
    by_cases hh : h = h0
    · subst hh
      rw [carCountAt_hours_not_mem _ _ _ _ _ hn0]
      exact carCountAt_schedHour_le _ _ _ _ st h hidx c
    · calc carCountAt _ c h ≤
          carCountAt (schedHour energy_needs availability cars_dict num_ports
            st h0).schedule c h + 1 := ih hnt _
        _ = carCountAt st.schedule c h + 1 := by
            rw [carCountAt_schedHour_ne _ _ _ _ _ hh]

/-! ## Candidate soundness -/

theorem firstNeed_spec (flags : List Bool) (hour : ℕ) (c : CarId) :
    ∀ (i : ℕ) (rs : List Req) (cand : Cand),
      firstNeed flags hour c i rs = some cand →
      ∃ j r, rs[j]? = some r ∧
        cand = ⟨c, ((i + j : ℕ) : ℤ), r.energy_kwh, r.max_rate_kw⟩ ∧
        r.prior_day_start ≤ hour ∧ hour < r.prior_day_end := by
  intro i rs
  induction rs generalizing i with
  | nil => intro cand h; exact absurd h (by simp [firstNeed])
  | cons r rest ih =>
    intro cand h
    rw [firstNeed] at h
    split at h
    · next hcond =>
      refine ⟨0, r, List.getElem?_cons_zero, ?_, hcond.2.1, hcond.2.2⟩
      have := Option.some_injective _ h
      rw [← this]
      norm_num
    · obtain ⟨j, r', hj, hc, hw⟩ := ih (i + 1) cand h
      refine ⟨j + 1, r', by simpa using hj, ?_, hw⟩
      rw [hc]
      congr 1
      omega

theorem carNeedsAt_ok (energy_needs : Needs) (met : MetTable) (cars_dict : Cars)
    (cs : List CarId) (hour : ℕ) :
    ∀ cand ∈ carNeedsAt energy_needs met cars_dict cs hour,
      CandOkAt energy_needs hour cand := by
  intro cand hmem
  unfold carNeedsAt at hmem
  obtain ⟨c, hcm, hf⟩ := List.mem_filterMap.mp hmem
  revert hf
  cases hl : aLookup energy_needs c with
  | none =>
    intro hf
    obtain rfl : _ = cand := Option.some_injective _ hf
    exact Or.inl ⟨rfl, hl, rfl⟩
  | some rs =>
    intro hf
    obtain ⟨j, r, hj, rfl, hw⟩ := firstNeed_spec _ _ _ 0 rs cand hf
    refine Or.inr ⟨rs, r, hl, ?_, rfl, rfl, hw.1, hw.2⟩
    simpa using hj

theorem mem_of_mem_prioritize {l : List Cand} {cand : Cand}
    (h : cand ∈ prioritize l) : cand ∈ l := by
  unfold prioritize at h
  rcases List.mem_append.mp h with h1 | h2
  · exact (List.mem_filter.mp ((List.mem_insertionSort _).mp h1)).1
  · exact (List.mem_filter.mp ((List.mem_insertionSort _).mp h2)).1

theorem hourCandidates_ok (energy_needs : Needs) (availability : Availability)
    (cars_dict : Cars) (met : MetTable) (hour num_ports : ℕ) :
    ∀ cand ∈ (hourCandidates energy_needs availability cars_dict met hour).take
      num_ports, CandOkAt energy_needs hour cand := by
  intro cand hmem
  exact carNeedsAt_ok _ _ _ _ _ cand
    (mem_of_mem_prioritize (List.mem_of_mem_take hmem))

/-! ## Window-sum arithmetic -/

theorem windowSum_append (l : List Session) (s : Session) (r : Req) :
    windowSum (l ++ [s]) r = windowSum l r +
      (if r.prior_day_start ≤ s.hour ∧ s.hour < r.prior_day_end then s.power_kw
       else 0) := by
  unfold windowSum
  rw [List.filter_append]
  by_cases hc : r.prior_day_start ≤ s.hour ∧ s.hour < r.prior_day_end
  · simp [hc]
  · simp [hc]

theorem reqAt_eq {energy_needs : Needs} {c : CarId} {rs : List Req} {i : ℕ} {r : Req}
    (hl : aLookup energy_needs c = some rs) (hj : rs[i]? = some r) :
    reqAt energy_needs c i = r := by
  unfold reqAt
  rw [hl]
  simp [List.getD_eq_getElem?_getD, hj]

theorem deliveredFor_eq {energy_needs : Needs} {st : SchedSt} {cand : Cand}
    {rs : List Req} {r : Req}
    (hl : aLookup energy_needs cand.car = some rs)
    (hj : rs[cand.req_index.toNat]? = some r) :
    deliveredFor energy_needs st cand = windowSum (ddGet st.schedule cand.car) r := by
  unfold deliveredFor
  rw [reqAt_eq hl hj, ddGet_ddTouch]

/-! ## Flag-soundness invariant (claim C4) -/

theorem metInv_assignLoop (energy_needs : Needs) (hour num_ports : ℕ)
    (hrates : RatesOk energy_needs) :
    ∀ l : List Cand, (∀ cand ∈ l, CandOkAt energy_needs hour cand) →
    ∀ (st : SchedSt) (cnt : ℕ), MetInv energy_needs st →
      MetInv energy_needs (assignLoop energy_needs hour num_ports l st cnt).1 := by
  intro l
  induction l with
  | nil => intro _ st cnt hinv; rw [assignLoop_nil]; exact hinv
  | cons cand rest ih =>
    intro hok st cnt hinv
    have hok0 : CandOkAt energy_needs hour cand := hok cand (List.mem_cons_self _ _)
    have hokr : ∀ c ∈ rest, CandOkAt energy_needs hour c :=
      fun c hc => hok c (List.mem_cons_of_mem _ hc)
    by_cases hg : num_ports ≤ cnt
    · rw [assignLoop_stop _ _ _ _ _ _ _ hg]; exact hinv
    · have hg' : cnt < num_ports := Nat.lt_of_not_le hg
      by_cases he : cand.energy_kwh = 0
      · rw [assignLoop_cons_opp _ _ _ _ _ _ _ hg' he]
        refine ih hokr _ (cnt + 1) ?_
        intro c rs i r hl hj hflag
        dsimp only at hflag ⊢
        have hold := hinv c rs i r hl hj hflag
        by_cases hcc : cand.car = c
        · subst hcc
          rw [ddGet_ddAppend_self, windowSum_append]
          dsimp only
          rcases hok0 with ⟨_, hnone, _⟩ | ⟨rs0, r0, hl0, hj0, _, hcr, _⟩
          · rw [hl] at hnone; exact absurd hnone (by simp)
          · obtain rfl : rs = rs0 := Option.some_injective _ (hl.symm.trans hl0)
            have hrate : 0 ≤ cand.max_rate_kw := by
              rw [hcr]
              exact hrates _ (aLookup_mem hl) _ (List.getElem?_mem hj0)
            have hnn : (0 : ℚ) ≤
                (if r.prior_day_start ≤ hour ∧ hour < r.prior_day_end then
                  cand.max_rate_kw else 0) := by
              split
              · exact hrate
              · exact le_refl 0
            linarith
        · rw [ddGet_ddAppend_ne _ hcc]
          exact hold
      · by_cases hd : cand.energy_kwh ≤ deliveredFor energy_needs st cand
        · rw [assignLoop_cons_skip _ _ _ _ _ _ _ hg' he hd]
          refine ih hokr _ cnt ?_
          intro c rs i r hl hj hflag
          dsimp only at hflag ⊢
          rw [ddGet_ddTouch]
          rcases metGet_metSet_cases _ _ _ _ _ hflag with ⟨hcc, hii⟩ | hold
          · rcases hok0 with ⟨_, hnone, _⟩ | ⟨rs0, r0, hl0, hj0, hce, _, _⟩
            · rw [hcc, hl] at hnone; exact absurd hnone (by simp)
            · have hl0' : aLookup energy_needs c = some rs0 := by
                rw [← hcc]; exact hl0
              obtain rfl : rs = rs0 := Option.some_injective _ (hl.symm.trans hl0')
              have hj0' : rs[i]? = some r0 := by rw [← hii]; exact hj0
              obtain rfl : r = r0 := Option.some_injective _ (hj.symm.trans hj0')
              have hdel := @deliveredFor_eq energy_needs st cand _ _ hl0 hj0
              rw [hdel, hcc] at hd
              rw [← hce]
              exact hd
          · exact hinv c rs i r hl hj hold
        · rw [assignLoop_cons_assign _ _ _ _ _ _ _ hg' he hd]
          refine ih hokr _ (cnt + 1) ?_
          intro c rs i r hl hj hflag
          dsimp only at hflag ⊢
          rcases hok0 with ⟨_, _, hze⟩ | ⟨rs0, r0, hl0, hj0, hce, hcr, hw⟩
          · exact absurd hze he
          · have hdel := @deliveredFor_eq energy_needs st cand _ _ hl0 hj0
            have hrate : 0 ≤ cand.max_rate_kw := by
              rw [hcr]
              exact hrates _ (aLookup_mem hl0) _ (List.getElem?_mem hj0)
            have hdl : deliveredFor energy_needs st cand < cand.energy_kwh :=
              not_le.mp hd
            have hpw : 0 ≤ min cand.max_rate_kw
                (cand.energy_kwh - deliveredFor energy_needs st cand) :=
              le_min hrate (by linarith)
            have hsum : ∀ r' : Req, windowSum (ddGet (ddAppend
                (ddTouch st.schedule cand.car) cand.car
                ⟨hour, min cand.max_rate_kw
                  (cand.energy_kwh - deliveredFor energy_needs st cand), cnt + 1⟩) c) r' =
                windowSum (ddGet st.schedule c) r' +
                (if c = cand.car then
                  (if r'.prior_day_start ≤ hour ∧ hour < r'.prior_day_end then
                    min cand.max_rate_kw
                      (cand.energy_kwh - deliveredFor energy_needs st cand) else 0)
                 else 0) := by
              intro r'
              by_cases hcc : cand.car = c
              · subst hcc
                rw [ddGet_ddAppend_self, ddGet_ddTouch, windowSum_append]
                simp
              · rw [ddGet_ddAppend_ne _ hcc, ddGet_ddTouch,
                  if_neg (fun he2 => hcc he2.symm)]
                ring
            rw [hsum r]
            have hif : (0:ℚ) ≤ (if c = cand.car then
                (if r.prior_day_start ≤ hour ∧ hour < r.prior_day_end then
                  min cand.max_rate_kw
                    (cand.energy_kwh - deliveredFor energy_needs st cand) else 0)
               else 0) := by
              split
              · split
                · exact hpw
                · exact le_refl 0
              · exact le_refl 0
            by_cases hth : cand.energy_kwh ≤ deliveredFor energy_needs st cand +
                min cand.max_rate_kw
                  (cand.energy_kwh - deliveredFor energy_needs st cand)
            · rw [if_pos hth] at hflag
              rcases metGet_metSet_cases _ _ _ _ _ hflag with ⟨hcc, hii⟩ | hold
              · have hl0' : aLookup energy_needs c = some rs0 := by
                  rw [← hcc]; exact hl0
                obtain rfl : rs = rs0 := Option.some_injective _ (hl.symm.trans hl0')
                have hj0' : rs[i]? = some r0 := by rw [← hii]; exact hj0
                obtain rfl : r = r0 := Option.some_injective _ (hj.symm.trans hj0')
                rw [if_pos hcc.symm, if_pos hw, ← hce, ← hcc, ← hdel]
                exact hth
              · have hold2 := hinv c rs i r hl hj hold
                linarith
            · rw [if_neg hth] at hflag
              have hold2 := hinv c rs i r hl hj hflag
              linarith

theorem metInv_init (needs : Needs) : MetInv needs ⟨[], metInit needs⟩ := by
  intro c rs i r _ _ hflag
  rw [metGet_metInit] at hflag
  exact absurd hflag (by simp)

theorem metInv_schedHour (energy_needs : Needs) (availability : Availability)
    (cars_dict : Cars) (num_ports : ℕ) (hrates : RatesOk energy_needs)
    (st : SchedSt) (h : ℕ) (hinv : MetInv energy_needs st) :
    MetInv energy_needs
      (schedHour energy_needs availability cars_dict num_ports st h) := by
  unfold schedHour
  split
  · exact metInv_assignLoop _ _ _ hrates _
      (hourCandidates_ok _ _ _ _ _ _) st 0 hinv
  · exact hinv

theorem metInv_hours (energy_needs : Needs) (availability : Availability)
    (cars_dict : Cars) (num_ports : ℕ) (hrates : RatesOk energy_needs)
    (hs : List ℕ) :
    ∀ st : SchedSt, MetInv energy_needs st →
      MetInv energy_needs
        (hs.foldl (schedHour energy_needs availability cars_dict num_ports) st) := by
  induction hs with
  | nil => intro st hinv; exact hinv
  | cons h0 t ih =>
    intro st hinv
    rw [List.foldl_cons]
    exact ih _ (metInv_schedHour _ _ _ _ hrates st h0 hinv)

/-! ## Zero-need requirements are never marked satisfied (claim C10) -/

theorem zeroUnmet_assignLoop (energy_needs : Needs) (hour num_ports : ℕ) :
    ∀ l : List Cand, (∀ cand ∈ l, CandOkAt energy_needs hour cand) →
    ∀ (st : SchedSt) (cnt : ℕ), ZeroUnmet energy_needs st →
      ZeroUnmet energy_needs (assignLoop energy_needs hour num_ports l st cnt).1 := by
  intro l
  induction l with
  | nil => intro _ st cnt hz; rw [assignLoop_nil]; exact hz
  | cons cand rest ih =>
    intro hok st cnt hz
    have hok0 : CandOkAt energy_needs hour cand := hok cand (List.mem_cons_self _ _)
    have hokr : ∀ c ∈ rest, CandOkAt energy_needs hour c :=
      fun c hc => hok c (List.mem_cons_of_mem _ hc)
    have hsetcase : ∀ (c : CarId) (rs : List Req) (i : ℕ) (r : Req),
        aLookup energy_needs c = some rs → rs[i]? = some r → r.energy_kwh = 0 →
        ¬cand.energy_kwh = 0 →
        metGet (metSet st.requirements_met cand.car cand.req_index.toNat) c i =
          false := by
      intro c rs i r hl hj hzr he
      by_cases hcc : cand.car = c ∧ cand.req_index.toNat = i
      · exfalso
        obtain ⟨hcc1, hcc2⟩ := hcc
        rcases hok0 with ⟨_, hnone, _⟩ | ⟨rs0, r0, hl0, hj0, hce, _, _⟩
        · rw [hcc1, hl] at hnone; exact absurd hnone (by simp)
        · have hl0' : aLookup energy_needs c = some rs0 := by rw [← hcc1]; exact hl0
          obtain rfl : rs = rs0 := Option.some_injective _ (hl.symm.trans hl0')
          have hj0' : rs[i]? = some r0 := by rw [← hcc2]; exact hj0
          obtain rfl : r = r0 := Option.some_injective _ (hj.symm.trans hj0')
          exact he (hce.trans hzr)
      · rw [metGet_metSet_ne _ hcc]
        exact hz c rs i r hl hj hzr
    by_cases hg : num_ports ≤ cnt
    · rw [assignLoop_stop _ _ _ _ _ _ _ hg]; exact hz
    · have hg' : cnt < num_ports := Nat.lt_of_not_le hg
      by_cases he : cand.energy_kwh = 0
      · rw [assignLoop_cons_opp _ _ _ _ _ _ _ hg' he]
        refine ih hokr _ (cnt + 1) ?_
        intro c rs i r hl hj hzr
        dsimp only
        exact hz c rs i r hl hj hzr
      · by_cases hd : cand.energy_kwh ≤ deliveredFor energy_needs st cand
        · rw [assignLoop_cons_skip _ _ _ _ _ _ _ hg' he hd]
          refine ih hokr _ cnt ?_
          intro c rs i r hl hj hzr
          dsimp only
          exact hsetcase c rs i r hl hj hzr he
        · rw [assignLoop_cons_assign _ _ _ _ _ _ _ hg' he hd]
          refine ih hokr _ (cnt + 1) ?_
          intro c rs i r hl hj hzr
          dsimp only
          by_cases hth : cand.energy_kwh ≤ deliveredFor energy_needs st cand +
              min cand.max_rate_kw
                (cand.energy_kwh - deliveredFor energy_needs st cand)
          · rw [if_pos hth]
            exact hsetcase c rs i r hl hj hzr he
          · rw [if_neg hth]
            exact hz c rs i r hl hj hzr

theorem zeroUnmet_init (needs : Needs) : ZeroUnmet needs ⟨[], metInit needs⟩ := by
  intro c rs i r _ _ _
  exact metGet_metInit needs c i

theorem zeroUnmet_schedHour (energy_needs : Needs) (availability : Availability)
    (cars_dict : Cars) (num_ports : ℕ) (st : SchedSt) (h : ℕ)
    (hz : ZeroUnmet energy_needs st) :
    ZeroUnmet energy_needs
      (schedHour energy_needs availability cars_dict num_ports st h) := by
  unfold schedHour
  split
  · exact zeroUnmet_assignLoop _ _ _ _ (hourCandidates_ok _ _ _ _ _ _) st 0 hz
  · exact hz

theorem zeroUnmet_hours (energy_needs : Needs) (availability : Availability)
    (cars_dict : Cars) (num_ports : ℕ) (hs : List ℕ) :
    ∀ st : SchedSt, ZeroUnmet energy_needs st →
      ZeroUnmet energy_needs
        (hs.foldl (schedHour energy_needs availability cars_dict num_ports) st) := by
  induction hs with
  | nil => intro st hz; exact hz
  | cons h0 t ih =>
    intro st hz
    rw [List.foldl_cons]
    exact ih _ (zeroUnmet_schedHour _ _ _ _ st h0 hz)

/-! ## Simulator trace structure (claims C8, C9) -/

theorem simHour_trace (energy_needs : Needs) (price_dict : List (ℕ × ℚ))
    (capacity initial_soc : ℚ) (c : CarId) (sessions : List Session)
    (st : SimSt) (hour : ℕ) :
    (simHour energy_needs price_dict capacity initial_soc c sessions st hour).trace =
      st.trace ++ [(min ((hour - 18) / 24) 5, hour,
        ((sessions.find? (fun s => s.hour == hour)).map Session.power_kw).getD 0,
        (simHour energy_needs price_dict capacity initial_soc c sessions st
          hour).soc)] := by
  rfl

theorem simFold_trace_hours (energy_needs : Needs) (price_dict : List (ℕ × ℚ))
    (capacity initial_soc : ℚ) (c : CarId) (sessions : List Session) (hs : List ℕ) :
    ∀ st : SimSt,
      ((hs.foldl (simHour energy_needs price_dict capacity initial_soc c sessions)
        st).trace).map (fun x => x.2.1) = st.trace.map (fun x => x.2.1) ++ hs := by
  induction hs with
  | nil => intro st; simp
  | cons h t ih =>
    intro st
    rw [List.foldl_cons, ih, simHour_trace]
    simp

theorem simCar_trace_hours (energy_needs : Needs) (price_dict : List (ℕ × ℚ))
    (capacity initial_soc : ℚ) (c : CarId) (sessions : List Session) :
    ((simCar energy_needs price_dict capacity initial_soc c sessions).trace).map
      (fun x => x.2.1) = List.range' 18 150 := by
  unfold simCar
  rw [simFold_trace_hours]
  rfl

theorem hourly_soc_lookup (schedule : Schedule) (cars_dict : Cars)
    (price_dict : List (ℕ × ℚ)) (energy_needs : Needs) (initial_soc : ℚ) (c : CarId) :
    aLookup (compute_costs_and_soc schedule cars_dict price_dict energy_needs
      initial_soc).hourly_soc c =
      (aLookup schedule c).map (fun sessions =>
        (simCar energy_needs price_dict (carsGet cars_dict c).capacity_kWh
          initial_soc c sessions).trace) := by
  unfold compute_costs_and_soc
  exact aLookup_map (fun c' sessions => (simCar energy_needs price_dict
    (carsGet cars_dict c').capacity_kWh initial_soc c' sessions).trace) schedule c

theorem final_soc_lookup (schedule : Schedule) (cars_dict : Cars)
    (price_dict : List (ℕ × ℚ)) (energy_needs : Needs) (initial_soc : ℚ) (c : CarId) :
    aLookup (compute_costs_and_soc schedule cars_dict price_dict energy_needs
      initial_soc).final_soc c = (aLookup cars_dict c).map (fun _ => initial_soc) := by
  unfold compute_costs_and_soc
  exact aLookup_map (fun _ _ => initial_soc) cars_dict c

/-! ## Lookup structure of the Energy-Need Deriver (claim C6) -/

theorem aLookup_eq_none_iff {β : Type} {l : List (CarId × β)} {c : CarId} :
    aLookup l c = none ↔ c ∉ l.map Prod.fst := by
  induction l with
  | nil => simp [aLookup_nil]
  | cons p rest ih =>
    obtain ⟨k, v⟩ := p
    rw [aLookup_cons]
    by_cases hk : k = c
    · subst hk; simp
    · rw [if_neg hk, ih]
      simp only [List.map_cons, List.mem_cons]
      constructor
      · intro h hmem
        rcases hmem with he | hm
        · exact hk he.symm
        · exact h hm
      · intro h hm
        exact h (Or.inr hm)

theorem aLookup_of_mem_nodup {β : Type} {l : List (CarId × β)} {c : CarId} {v : β}
    (hnd : (l.map Prod.fst).Nodup) (hm : (c, v) ∈ l) : aLookup l c = some v := by
  induction l with
  | nil => exact absurd hm (by simp)
  | cons p rest ih =>
    obtain ⟨k, w⟩ := p
    rw [List.map_cons] at hnd
    obtain ⟨hk, hrest⟩ := List.nodup_cons.mp hnd
    rcases List.mem_cons.mp hm with heq | hmr
    · have h1 : c = k := congrArg Prod.fst heq
      have h2 : v = w := congrArg Prod.snd heq
      subst h1
      subst h2
      rw [aLookup_cons, if_pos rfl]
    · have hkc : k ≠ c := by
        intro he
        subst he
        exact hk (List.mem_map.mpr ⟨(k, v), hmr, rfl⟩)
      rw [aLookup_cons, if_neg hkc]
      exact ih hrest hmr

theorem calculate_keys_sublist (cars_dict : Cars) (requirements : Requirements)
    (initial_soc : ℚ) :
    ((calculate_energy_needs cars_dict requirements initial_soc).map Prod.fst).Sublist
      (requirements.map Prod.fst) := by
  induction requirements with
  | nil => simp [calculate_energy_needs]
  | cons p rest ih =>
    unfold calculate_energy_needs at ih ⊢
    rw [List.filterMap_cons]
    dsimp only
    split
    · exact ih.cons _
    · next heq =>
      split at heq
      · exact absurd heq (by simp)
      · have hb := Option.some_injective _ heq
        rw [← hb, List.map_cons, List.map_cons]
        exact ih.cons₂ _

theorem aLookup_calculate (cars_dict : Cars) (requirements : Requirements)
    (initial_soc : ℚ) (cid : CarId)
    (hnd : (requirements.map Prod.fst).Nodup) :
    aLookup (calculate_energy_needs cars_dict requirements initial_soc) cid =
      (aLookup requirements cid).bind (fun days =>
        let l := reqsOfCar (carsGet cars_dict cid).capacity_kWh
          (carsGet cars_dict cid).max_charge_rate_kW initial_soc days
        if l.isEmpty then none else some l) := by
  induction requirements with
  | nil => rfl
  | cons p rest ih =>
    obtain ⟨k, days⟩ := p
    rw [List.map_cons] at hnd
    obtain ⟨hk, hrest⟩ := List.nodup_cons.mp hnd
    have ihr := ih hrest
    unfold calculate_energy_needs at ihr ⊢
    rw [List.filterMap_cons]
    dsimp only
    by_cases hemp : (reqsOfCar (carsGet cars_dict k).capacity_kWh
        (carsGet cars_dict k).max_charge_rate_kW initial_soc days).isEmpty
    · rw [if_pos hemp]
      by_cases hkc : k = cid
      · subst hkc
        rw [aLookup_cons, if_pos rfl]
        have hnone : aLookup (List.filterMap
            (fun cr =>
              let car := carsGet cars_dict cr.1
              let l := reqsOfCar car.capacity_kWh car.max_charge_rate_kW initial_soc cr.2
              if l.isEmpty then none else some (cr.1, l)) rest) k = none := by
          rw [aLookup_eq_none_iff]
          intro hmem
          have hsub := calculate_keys_sublist cars_dict rest initial_soc
          unfold calculate_energy_needs at hsub
          exact hk (hsub.mem hmem)
        rw [hnone]
        simp only [Option.some_bind]
        rw [if_pos hemp]
      · rw [aLookup_cons, if_neg hkc]
        exact ihr
    · rw [if_neg hemp]
      by_cases hkc : k = cid
      · subst hkc
        rw [aLookup_cons, if_pos rfl, aLookup_cons, if_pos rfl]
        simp only [Option.some_bind]
        rw [if_neg hemp]
      · rw [aLookup_cons, if_neg hkc, aLookup_cons, if_neg hkc]
        exact ihr

/-- The rate hypothesis of the flag-soundness law holds for any needs table
the Energy-Need Deriver produces from a roster without negative charge rates:
every record copies its vehicle's `max_charge_rate_kW`. -/
theorem ratesOk_calculate (cars_dict : Cars) (requirements : Requirements)
    (initial_soc : ℚ)
    (hrates : ∀ p ∈ cars_dict, 0 ≤ p.2.max_charge_rate_kW) :
    RatesOk (calculate_energy_needs cars_dict requirements initial_soc) := by
  intro p hp r hr
  unfold calculate_energy_needs at hp
  obtain ⟨cr, _, hf⟩ := List.mem_filterMap.mp hp
  dsimp only at hf
  split at hf
  · exact absurd hf (by simp)
  · have hps := Option.some_injective _ hf
    rw [← hps] at hr
    have hr2 : r ∈ reqsOfCar (carsGet cars_dict cr.1).capacity_kWh
        (carsGet cars_dict cr.1).max_charge_rate_kW initial_soc cr.2 := hr
    unfold reqsOfCar at hr2
    obtain ⟨dt, _, hrm⟩ := List.mem_flatMap.mp hr2
    obtain ⟨ts, _, hrr⟩ := List.mem_map.mp hrm
    rw [← hrr]
    dsimp only
    unfold carsGet
    cases hlk : aLookup cars_dict cr.1 with
    | none => exact le_refl 0
    | some car => exact hrates _ (aLookup_mem hlk)

/-! ## Claim theorems -/

/-- C1 counterexample: in the §8 scenario the session recorded at hour 20 has
power `182/19 ≈ 9.58 kW`, not the 11 kW the claim asserts for hour 20 (the
code caps the power at the remaining need, line 112). -/
theorem claim_C1_counterexample :
    ((ddGet run1.schedule "EV1").filter (fun s => s.hour == 20)).map
      Session.power_kw = [182/19] ∧ ¬((182/19 : ℚ) = 11) := by
  decide

/-- C1 (amended): for one vehicle with capacity 50 kWh, max rate 11 kW,
initial SoC 0.2 and a day-0 requirement of target 0.8 at "07:00", the
Energy-Need Deriver produces energy need `(0.8-0.2)*50/0.95 = 600/19 ≈ 31.58`
kWh, deadline hour 31 and window `[18, 24)`; with 1 port and full availability
the Slot Scheduler assigns 11 kW at hours 18 and 19 and
`min(11, 600/19 - 22) = 182/19 ≈ 9.58` kW at hour 20, marks the requirement
satisfied at hour 20 (not before), and assigns no sessions at hours 21–23. -/
theorem claim_C1_amended :
    needs1 = [("EV1", [⟨0, 31, 600/19, 11, 0.8, 18, 24⟩])] ∧
    (600/19 : ℚ) = (0.8 - 0.2) * 50 / 0.95 ∧
    run1.schedule = [("EV1", [⟨18, 11, 1⟩, ⟨19, 11, 1⟩, ⟨20, 182/19, 1⟩])] ∧
    (182/19 : ℚ) = min 11 (600/19 - (11 + 11)) ∧
    run1.requirements_met = [("EV1", [true])] ∧
    run1pre.requirements_met = [("EV1", [false])] ∧
    run1mid.requirements_met = [("EV1", [true])] ∧
    (ddGet run1.schedule "EV1").filter (fun s => decide (21 ≤ s.hour)) = [] := by
  refine ⟨by decide, by decide, by decide, by decide, by decide, by decide,
    by decide, by decide⟩

/-- C3: in every hour the scheduler's candidate list splits into a needs group
(energy > 0) sorted ascending by energy with ties broken by descending max
rate, followed by an opportunistic group (energy = 0) sorted descending by max
rate, each group a permutation of the corresponding candidates; and in the
concrete one-port scenario the needs vehicle `N` (5 kWh at 7 kW) beats the
opportunistic vehicle `O` (22 kW), which is listed first in the availability
index. -/
theorem claim_C3 :
    (∀ l : List Cand, ∃ l1 l2 : List Cand,
      prioritize l = l1 ++ l2 ∧
      List.Perm l1 (l.filter (fun c => decide (0 < c.energy_kwh))) ∧
      List.Perm l2 (l.filter (fun c => decide (c.energy_kwh = 0))) ∧
      l1.Pairwise needsRel ∧ l2.Pairwise oppRel) ∧
    av3.index = ["O", "N"] ∧
    hourCandidates needs3 av3 cars3 (metInit needs3) 18 =
      [⟨"N", 0, 5, 7⟩, ⟨"O", -1, 0, 22⟩] ∧
    ddGet run3.schedule "N" = [⟨18, 5, 1⟩] ∧
    ddGet run3.schedule "O" = [] := by
  refine ⟨?_, by decide, by decide, by decide, by decide⟩
  intro l
  exact ⟨_, _, rfl, List.perm_insertionSort _ _, List.perm_insertionSort _ _,
    List.sorted_insertionSort _ _, List.sorted_insertionSort _ _⟩

/-- C5: at hour 19 of the truncation scenario the scheduler faces three
candidates but slices the priority list to the first `num_ports = 2`; the top
candidate `A` turns out already-delivered (its second requirement's flag flips
from false to true), consumes no port, and is not replaced from beyond the
slice, so only one session (vehicle `B`) is assigned at hour 19 although a
port stays free and the willing candidate `C` exists. -/
theorem claim_C5 :
    cands5At19 = [⟨"A", 1, 5, 10⟩, ⟨"B", -1, 0, 22⟩, ⟨"C", -1, 0, 5⟩] ∧
    2 < cands5At19.length ∧
    run5pre.requirements_met = [("A", [true, false])] ∧
    run5.requirements_met = [("A", [true, true])] ∧
    countAt run5.schedule 19 = 1 ∧
    carCountAt run5.schedule "A" 19 = 0 ∧
    carCountAt run5.schedule "C" 19 = 0 ∧
    ddGet run5.schedule "B" = [⟨18, 22, 2⟩, ⟨19, 22, 1⟩] := by
  refine ⟨by decide, by decide, by decide, by decide, by decide, by decide,
    by decide, by decide⟩

/-- C10: a requirement whose derived energy need is exactly 0 (target SoC
equal to the initial SoC) is never marked satisfied by the scheduler, for any
input; concretely, vehicle `Z`'s zero-need candidate lands in the
opportunistic group (the needs group is empty), wins its port at full max
rate 11 kW at every hour 18–23 of its eligibility window, and its flag stays
false. -/
theorem claim_C10 :
    (∀ (energy_needs : Needs) (availability : Availability)
        (price_dict : List (ℕ × ℚ)) (cars_dict : Cars) (num_ports total_hours : ℕ)
        (c : CarId) (rs : List Req) (i : ℕ) (r : Req),
      aLookup energy_needs c = some rs → rs[i]? = some r → r.energy_kwh = 0 →
      metGet (schedule_charging_full energy_needs availability price_dict cars_dict
        num_ports total_hours).requirements_met c i = false) ∧
    hourCandidates needsZ avZ carsZ (metInit needsZ) 18 = [⟨"Z", 0, 0, 11⟩] ∧
    (hourCandidates needsZ avZ carsZ (metInit needsZ) 18).filter
      (fun cand => decide (0 < cand.energy_kwh)) = [] ∧
    runZ.schedule = [("Z", [⟨18, 11, 1⟩, ⟨19, 11, 1⟩, ⟨20, 11, 1⟩, ⟨21, 11, 1⟩,
      ⟨22, 11, 1⟩, ⟨23, 11, 1⟩])] ∧
    runZ.requirements_met = [("Z", [false])] ∧
    (carsGet carsZ "Z").max_charge_rate_kW = 11 := by
  refine ⟨?_, by decide, by decide, by decide, by decide, by decide⟩
  intro energy_needs availability price_dict cars_dict num_ports total_hours
    c rs i r hl hj hz
  exact zeroUnmet_hours energy_needs availability cars_dict num_ports
    (List.range' 18 (total_hours - 18)) ⟨[], metInit energy_needs⟩
    (zeroUnmet_init energy_needs) c rs i r hl hj hz

/-- C2: whatever the inputs, at each absolute hour the Schedule holds at most
`num_ports` sessions summed across all vehicles, and (given the availability
index lists each vehicle once, as a matrix does) each vehicle holds at most
one session at any hour. -/
theorem claim_C2 (energy_needs : Needs) (availability : Availability)
    (price_dict : List (ℕ × ℚ)) (cars_dict : Cars) (num_ports total_hours h : ℕ)
    (hidx : availability.index.Nodup) :
    countAt (schedule_charging energy_needs availability price_dict cars_dict
      num_ports total_hours) h ≤ num_ports ∧
    ∀ c : CarId, carCountAt (schedule_charging energy_needs availability price_dict
      cars_dict num_ports total_hours) c h ≤ 1 := by
  constructor
  · have hb := @countAt_hours_le energy_needs availability cars_dict num_ports
      (List.range' 18 (total_hours - 18))
      (List.nodup_range' 18 (total_hours - 18) 1 one_pos) h
      ⟨[], metInit energy_needs⟩
    have h0 : countAt (SchedSt.mk [] (metInit energy_needs)).schedule h = 0 := rfl
    show countAt ((List.range' 18 (total_hours - 18)).foldl
      (schedHour energy_needs availability cars_dict num_ports)
      ⟨[], metInit energy_needs⟩).schedule h ≤ num_ports
    omega
  · intro c
    have hb := @carCountAt_hours_le energy_needs availability cars_dict num_ports
      (List.range' 18 (total_hours - 18))
      (List.nodup_range' 18 (total_hours - 18) 1 one_pos) hidx h c
      ⟨[], metInit energy_needs⟩
    have h0 : carCountAt (SchedSt.mk [] (metInit energy_needs)).schedule c h = 0 := rfl
    show carCountAt ((List.range' 18 (total_hours - 18)).foldl
      (schedHour energy_needs availability cars_dict num_ports)
      ⟨[], metInit energy_needs⟩).schedule c h ≤ 1
    omega

/-- C2 witness: the port bound instantiated at the three-vehicle truncation
scenario with 2 ports at hour 18. -/
theorem claim_C2_witness :
    av5.index.Nodup ∧
    (countAt (schedule_charging needs5 av5 [] cars5 2 20) 18 ≤ 2 ∧
     ∀ c : CarId, carCountAt (schedule_charging needs5 av5 [] cars5 2 20) c 18 ≤ 1) :=
  ⟨by decide, claim_C2 needs5 av5 [] cars5 2 20 18 (by decide)⟩

/-- C4: if every derived requirement has a nonnegative max charge rate, then
every requirement whose satisfaction flag is true after the scheduler finishes
received sessions within its eligibility window summing to at least its energy
need (exact, since the model computes in `ℚ`). -/
theorem claim_C4 (energy_needs : Needs) (availability : Availability)
    (price_dict : List (ℕ × ℚ)) (cars_dict : Cars) (num_ports total_hours : ℕ)
    (hrates : RatesOk energy_needs) :
    ∀ (c : CarId) (rs : List Req) (i : ℕ) (r : Req),
      aLookup energy_needs c = some rs → rs[i]? = some r →
      metGet (schedule_charging_full energy_needs availability price_dict cars_dict
        num_ports total_hours).requirements_met c i = true →
      r.energy_kwh ≤ windowSum
        (ddGet (schedule_charging_full energy_needs availability price_dict cars_dict
          num_ports total_hours).schedule c) r := by
  have hinv := metInv_hours energy_needs availability cars_dict num_ports hrates
    (List.range' 18 (total_hours - 18)) ⟨[], metInit energy_needs⟩
    (metInv_init energy_needs)
  exact hinv

/-- C4 witness: in the §8 scenario the satisfied requirement's window sum
`11 + 11 + 182/19 = 600/19` meets its energy need exactly. -/
theorem claim_C4_witness :
    RatesOk needs1 ∧
    (600/19 : ℚ) ≤ windowSum (ddGet run1.schedule "EV1")
      ⟨0, 31, 600/19, 11, 0.8, 18, 24⟩ :=
  ⟨by decide,
   claim_C4 needs1 av1 [] cars1 1 24 (by decide) "EV1"
     [⟨0, 31, 600/19, 11, 0.8, 18, 24⟩] 0 ⟨0, 31, 600/19, 11, 0.8, 18, 24⟩
     (by decide) (by decide) (by decide)⟩

/-- C6: for every roster vehicle and requirement entry (day `d`, time string
parsed to hour `H`, target `t`), the Energy-Need Deriver emits a record with
deadline `(d+1)*24 + H`, energy `(t - initial_soc) * capacity / 0.95`, the
vehicle's max rate, and window `[d*24+18, (d+1)*24)`, in entry order; vehicles
with no entries (absent, or with no (day, time) pairs) get no requirement
list. -/
theorem claim_C6 (cars_dict : Cars) (requirements : Requirements)
    (initial_soc : ℚ) (cid : CarId)
    (hnd : (requirements.map Prod.fst).Nodup) :
    (∀ days car, (cid, days) ∈ requirements → aLookup cars_dict cid = some car →
      aLookup (calculate_energy_needs cars_dict requirements initial_soc) cid =
        (if (days.flatMap (fun dt => dt.2)).isEmpty then none
         else some (days.flatMap (fun dt => dt.2.map (fun ts =>
           (⟨dt.1, (dt.1 + 1) * 24 + parseHour ts.1,
             (ts.2 - initial_soc) * car.capacity_kWh / 0.95,
             car.max_charge_rate_kW, ts.2, dt.1 * 24 + 18,
             (dt.1 + 1) * 24⟩ : Req)))))) ∧
    (aLookup requirements cid = none →
      aLookup (calculate_energy_needs cars_dict requirements initial_soc) cid =
        none) := by
  constructor
  · intro days car hmem hcar
    rw [aLookup_calculate _ _ _ _ hnd, aLookup_of_mem_nodup hnd hmem]
    simp only [Option.some_bind]
    have hcg : carsGet cars_dict cid = car := by
      unfold carsGet
      rw [hcar]
      rfl
    rw [hcg]
    have hcond : (reqsOfCar car.capacity_kWh car.max_charge_rate_kW initial_soc
        days).isEmpty = (days.flatMap (fun dt => dt.2)).isEmpty := by
      rcases h1 : days.flatMap (fun dt => dt.2) with _ | ⟨b, u⟩
      · have : reqsOfCar car.capacity_kWh car.max_charge_rate_kW initial_soc
            days = [] := by
          unfold reqsOfCar
          rw [List.flatMap_eq_nil_iff] at h1 ⊢
          intro dt hdt
          rw [List.map_eq_nil_iff]
          exact h1 dt hdt
        rw [this]
        rfl
      · have : reqsOfCar car.capacity_kWh car.max_charge_rate_kW initial_soc
            days ≠ [] := by
          unfold reqsOfCar
          intro hc
          rw [List.flatMap_eq_nil_iff] at hc
          have hb : b ∈ days.flatMap (fun dt => dt.2) := by
            rw [h1]; exact List.mem_cons_self _ _
          obtain ⟨dt, hdt, hbdt⟩ := List.mem_flatMap.mp hb
          have := hc dt hdt
          rw [List.map_eq_nil_iff] at this
          rw [this] at hbdt
          exact absurd hbdt (by simp)
        rcases h2 : reqsOfCar car.capacity_kWh car.max_charge_rate_kW initial_soc
            days with _ | ⟨b2, u2⟩
        · exact absurd h2 this
        · rfl
    rw [hcond]
    rcases (days.flatMap (fun dt => dt.2)).isEmpty with _ | _
    · rfl
    · rfl
  · intro hnone
    rw [aLookup_calculate _ _ _ _ hnd, hnone]
    rfl

/-- C6 witness: the deriver's lookup law instantiated at the §8 scenario. -/
theorem claim_C6_witness :
    (reqs1.map Prod.fst).Nodup ∧
    aLookup (calculate_energy_needs cars1 reqs1 0.2) "EV1" =
      some [⟨0, 31, (0.8 - 0.2) * 50 / 0.95, 11, 0.8, 18, 24⟩] := by
  refine ⟨by decide, ?_⟩
  have h := (claim_C6 cars1 reqs1 0.2 "EV1" (by decide)).1
    [(0, [("07:00", 0.8)])] ⟨50, 11⟩ (by decide) (by decide)
  rw [h]
  decide

/-- C7 counterexample: target SoC 0.1 lies in `[0, 1]`, yet with the default
initial SoC 0.2 the derived energy need is `(0.1 - 0.2)*50/0.95 = -100/19`,
which is negative. -/
theorem claim_C7_counterexample :
    calculate_energy_needs cars1 reqs7 0.2 =
      [("EV1", [⟨0, 31, -100/19, 11, 0.1, 18, 24⟩])] ∧
    (0 : ℚ) ≤ 0.1 ∧ (0.1 : ℚ) ≤ 1 ∧ ¬((0 : ℚ) ≤ -100/19) := by
  refine ⟨by decide, by decide, by decide, by decide⟩

/-- C7 (amended): for every input whose target SoC values are at least the
initial SoC and whose battery capacities are nonnegative, every requirement
produced by the Energy-Need Deriver has a nonnegative energy need. -/
theorem claim_C7_amended (cars_dict : Cars) (requirements : Requirements)
    (initial_soc : ℚ)
    (htgt : ∀ p ∈ requirements, ∀ dt ∈ p.2, ∀ ts ∈ dt.2, initial_soc ≤ ts.2)
    (hcap : ∀ p ∈ cars_dict, 0 ≤ p.2.capacity_kWh) :
    ∀ p ∈ calculate_energy_needs cars_dict requirements initial_soc,
      ∀ r ∈ p.2, 0 ≤ r.energy_kwh := by
  intro p hp r hr
  unfold calculate_energy_needs at hp
  obtain ⟨cr, hcr, hf⟩ := List.mem_filterMap.mp hp
  dsimp only at hf
  split at hf
  · exact absurd hf (by simp)
  · have hps := Option.some_injective _ hf
    have hr2 : r ∈ reqsOfCar (carsGet cars_dict cr.1).capacity_kWh
        (carsGet cars_dict cr.1).max_charge_rate_kW initial_soc cr.2 := by
      rw [← hps] at hr
      exact hr
    unfold reqsOfCar at hr2
    obtain ⟨dt, hdt, hrm⟩ := List.mem_flatMap.mp hr2
    obtain ⟨ts, hts, hrr⟩ := List.mem_map.mp hrm
    have hcapn : 0 ≤ (carsGet cars_dict cr.1).capacity_kWh := by
      unfold carsGet
      cases hlk : aLookup cars_dict cr.1 with
      | none => exact le_refl 0
      | some car => exact hcap _ (aLookup_mem hlk)
    have htn : initial_soc ≤ ts.2 := htgt _ hcr _ hdt _ hts
    rw [← hrr]
    dsimp only
    apply div_nonneg
    · exact mul_nonneg (sub_nonneg.mpr htn) hcapn
    · norm_num

/-- C7 witness: the amended nonnegativity law instantiated at the §8 scenario,
whose single requirement needs `600/19 ≥ 0` kWh. -/
theorem claim_C7_witness :
    (∀ p ∈ reqs1, ∀ dt ∈ p.2, ∀ ts ∈ dt.2, (0.2 : ℚ) ≤ ts.2) ∧
    (∀ p ∈ cars1, 0 ≤ p.2.capacity_kWh) ∧
    (0 : ℚ) ≤ (600/19 : ℚ) :=
  ⟨by decide, by decide,
   claim_C7_amended cars1 reqs1 0.2 (by decide) (by decide)
     ("EV1", [⟨0, 31, 600/19, 11, 0.8, 18, 24⟩]) (by decide)
     ⟨0, 31, 600/19, 11, 0.8, 18, 24⟩ (by decide)⟩

/-- C8 counterexample: vehicle `X` is in the roster but never available, so
the scheduler's Schedule has no entry for it and the simulator (which iterates
the Schedule's keys, not the roster) emits no hourly trace for `X` at all. -/
theorem claim_C8_counterexample :
    (aLookup carsX "X").isSome ∧ runX.schedule = [] ∧
    aLookup simX.hourly_soc "X" = none := by
  refine ⟨by decide, by decide, by decide⟩

/-- C8 (amended): the simulator emits, for every vehicle that has an entry in
the Schedule mapping (and only those), one hourly trace record for every hour
in `[18, 168)` — the week horizon hardcoded in `compute_costs_and_soc`,
independent of the scheduler's `total_hours`; roster vehicles without a
Schedule entry get no trace. -/
theorem claim_C8_amended (schedule : Schedule) (cars_dict : Cars)
    (price_dict : List (ℕ × ℚ)) (energy_needs : Needs) (initial_soc : ℚ)
    (c : CarId) :
    (∀ sessions, aLookup schedule c = some sessions →
      ∃ tr, aLookup (compute_costs_and_soc schedule cars_dict price_dict
        energy_needs initial_soc).hourly_soc c = some tr ∧
        tr.map (fun x => x.2.1) = List.range' 18 150) ∧
    (aLookup schedule c = none →
      aLookup (compute_costs_and_soc schedule cars_dict price_dict energy_needs
        initial_soc).hourly_soc c = none) := by
  constructor
  · intro sessions hs
    rw [hourly_soc_lookup, hs]
    exact ⟨_, rfl, simCar_trace_hours _ _ _ _ _ _⟩
  · intro hn
    rw [hourly_soc_lookup, hn]
    rfl

/-- C9: the "final SoC" map returned by the simulator assigns exactly the
initial SoC to every roster vehicle (and nothing to others), regardless of
the schedule; concretely, in the §8 scenario the hourly trace reaches SoC 0.8
at hour 20 while the final-SoC entry still reads 0.2. -/
theorem claim_C9 :
    (∀ (schedule : Schedule) (cars_dict : Cars) (price_dict : List (ℕ × ℚ))
        (energy_needs : Needs) (initial_soc : ℚ) (c : CarId),
      aLookup (compute_costs_and_soc schedule cars_dict price_dict energy_needs
        initial_soc).final_soc c = (aLookup cars_dict c).map (fun _ => initial_soc)) ∧
    aLookup sim1.final_soc "EV1" = some 0.2 ∧
    ((aLookup sim1.hourly_soc "EV1").getD []).getD 2 (0, 0, 0, 0) =
      (0, 20, 182/19, 0.8) ∧
    ¬((0.8 : ℚ) = 0.2) := by
  refine ⟨final_soc_lookup, by decide, by decide, by decide⟩

end EvCharging
